import Mathlib

/-!
Verification of the ChampSim BTB checkpoint subsystem.

This development shallowly embeds the branch-target-buffer facade
(src/btb/basic_btb/basic_btb.cc), its checkpoint state
(src/inc/btb_checkpoint_types.h) and the line-oriented checkpoint codec
(src/src/cache_checkpoint.cc).  The three sub-predictors
(direct_predictor, indirect_predictor, return_stack) and the generic
lru_table are declared but not defined in this repository; their
behaviour is modelled from the specification (sections 4.1-4.4) and each
such definition is marked.

Machine integers are embedded as Nat (unsigned) and Int (signed), with
explicit truncation (mod 2^w) where the source wraps.  Addresses are the
underlying unsigned word of champsim::address.
-/

namespace BtbCkptProof

/-! ### Characters, whitespace and digits

The codec reads lines, trims them with std::isspace, and splits tokens on
whitespace (istringstream extraction).  Numerals are rendered by fmt as
decimal (integers) or 0x-prefixed hex (champsim::address) and are read
back by stream extraction (decimal) or std::stoull with base 0
(auto-detected).  All rendering and parsing is implemented with fuel so
that every definition is structurally recursive and kernel-evaluable. -/

/-- The six characters accepted by std::isspace in the C locale. -/
def isSp (c : Char) : Bool :=
  c = ' ' || c = '\t' || c = '\n' || c = '\r' || c = '\x0b' || c = '\x0c'

/-- Digit character for values below 16, lowercase, as fmt prints them. -/
def digCh (d : Nat) : Char :=
  if d < 10 then Char.ofNat ('0'.toNat + d) else Char.ofNat ('a'.toNat + (d - 10))

/-- Value of a digit character in base `b` (at most 16): decimal digits,
then lowercase and uppercase hex letters.  Characters whose value is not
below `b` are rejected, which models strtoull digit validation for every
base used by the codec (8, 10, 16). -/
def digVal (b : Nat) (c : Char) : Option Nat :=
  let v : Nat :=
    if '0' ≤ c ∧ c ≤ '9' then c.toNat - '0'.toNat
    else if 'a' ≤ c ∧ c ≤ 'f' then c.toNat - 'a'.toNat + 10
    else if 'A' ≤ c ∧ c ≤ 'F' then c.toNat - 'A'.toNat + 10
    else 16
  if v < b then some v else none

/-- Most-significant-first digit string of `n` in base `b`, with fuel;
`natDigits` supplies fuel `n`, which is always sufficient. -/
def natDigitsAux (b : Nat) : Nat → Nat → List Char
  | 0, n => [digCh (n % b)]
  | fuel + 1, n => if n < b then [digCh n] else natDigitsAux b fuel (n / b) ++ [digCh (n % b)]

/-- Decimal or hexadecimal rendering of a natural number, as fmt emits it. -/
def natDigits (b n : Nat) : List Char := natDigitsAux b n n

/-- Horner accumulation of digit characters in base `b`; `none` on the
first invalid digit. -/
def foldDigits (b : Nat) (cs : List Char) : Option Nat :=
  cs.foldl (fun acc c => acc.bind fun n => (digVal b c).map fun d => n * b + d) (some 0)

/-- Parse a non-empty all-digit token in base `b`. -/
def parseBase (b : Nat) (cs : List Char) : Option Nat :=
  match cs with
  | [] => none
  | _ => foldDigits b cs

/-! ### Signed and address tokens -/

/-- Decimal rendering of a signed integer, as fmt prints a long. -/
def intDigits (i : Int) : List Char :=
  if i < 0 then '-' :: natDigits 10 (-i).toNat else natDigits 10 i.toNat

/-- Stream extraction of a signed decimal integer from a token
(operator>> into a long with default flags). -/
def parseIntTok (cs : List Char) : Option Int :=
  match cs with
  | [] => none
  | c :: rest =>
    if c = '-' then (parseBase 10 rest).map fun n => -(n : Int)
    else (parseBase 10 (c :: rest)).map fun n => (n : Int)

/-- Stream extraction of an unsigned decimal integer from a token. -/
def parseNatTok (cs : List Char) : Option Nat := parseBase 10 cs

/-- Rendering of a champsim::address by its fmt formatter:
0x-prefixed lowercase hexadecimal. -/
def addrDigits (a : Nat) : List Char := '0' :: 'x' :: natDigits 16 a

/-- parse_address_token from src/src/cache_checkpoint.cc: std::stoull with
base 0 (auto-detection: 0x/0X hex, leading 0 octal, else decimal), and the
whole token must be consumed.  Tokens with a partially-consumable numeric
prefix and stoull's negative-sign wrap-around are rejected here instead;
no checkpoint emitted by the codec contains such tokens. -/
def parseAddrTok (cs : List Char) : Option Nat :=
  match cs with
  | [] => none
  | c :: rest =>
    if c = '0' then
      match rest with
      | [] => some 0
      | d :: rest2 => if d = 'x' ∨ d = 'X' then parseBase 16 rest2 else parseBase 8 rest
    else parseBase 10 cs

/-! ### Tokenization

istringstream extraction splits the trimmed line on whitespace.  The
tokenizer below is the token-granular model of that: maximal runs of
non-space characters. -/

/-- Accumulator-based whitespace splitter. -/
def tokenizeAux : List Char → List Char → List (List Char)
  | [], acc => if acc.isEmpty then [] else [acc.reverse]
  | c :: rest, acc =>
    if isSp c then
      (if acc.isEmpty then tokenizeAux rest [] else acc.reverse :: tokenizeAux rest [])
    else tokenizeAux rest (c :: acc)

/-- Whitespace-separated tokens of a character list. -/
def tokenize (l : List Char) : List (List Char) := tokenizeAux l []

/-- Join tokens with single spaces, as the emitter's fmt strings do. -/
def tokensToLine : List (List Char) → List Char
  | [] => []
  | [t] => t
  | t :: ts => t ++ ' ' :: tokensToLine ts

/-- A well-formed token: non-empty with no whitespace characters. -/
def WfTok (t : List Char) : Prop := t ≠ [] ∧ ∀ c ∈ t, isSp c = false

instance (t : List Char) : Decidable (WfTok t) := by
  unfold WfTok
  infer_instance

/-! ### Line trimming -/

/-- trim_copy from src/src/cache_checkpoint.cc: strip leading and trailing
isspace characters. -/
def trimChars (l : List Char) : List Char :=
  ((l.dropWhile isSp).reverse.dropWhile isSp).reverse

/-! ### Data model

Geometry is the set of compile-time constants of section 6 of the spec
(SETS, WAYS, LOG2_BLOCK, INDIRECT_SIZE, HISTORY_BITS, RAS_MAX,
CALL_TRACKER_N).  The source fixes them per build; the embedding carries
them as parameters, with the set and indirect-table counts as powers of
two as the spec's indexing requires. -/

structure Geometry where
  logBlock : Nat
  logSets : Nat
  logIndir : Nat
  histBits : Nat
  ways : Nat
  trackerN : Nat
  rasMax : Nat
  ways_pos : 0 < ways
  trackerN_pos : 0 < trackerN

def Geometry.sets (g : Geometry) : Nat := 2 ^ g.logSets

def Geometry.indirSize (g : Geometry) : Nat := 2 ^ g.logIndir

/-- direct_predictor::branch_info with the spec's fixed encoding
(section 3): 0 = INDIRECT, 1 = RETURN, 2 = CONDITIONAL, 3 = ALWAYS_TAKEN. -/
inductive BranchInfo
  | INDIRECT
  | RETURN
  | CONDITIONAL
  | ALWAYS_TAKEN
deriving DecidableEq, BEq

/-- static_cast<uint8_t> of a branch_info value. -/
def encodeBranchInfo : BranchInfo → Nat
  | .INDIRECT => 0
  | .RETURN => 1
  | .CONDITIONAL => 2
  | .ALWAYS_TAKEN => 3

/-- to_branch_info from src/btb/basic_btb/basic_btb.cc: the switch maps the
encodings of INDIRECT, RETURN and CONDITIONAL back to their enumerators;
the ALWAYS_TAKEN case and the default both yield ALWAYS_TAKEN. -/
def to_branch_info (v : Nat) : BranchInfo :=
  if v = encodeBranchInfo .INDIRECT then .INDIRECT
  else if v = encodeBranchInfo .RETURN then .RETURN
  else if v = encodeBranchInfo .CONDITIONAL then .CONDITIONAL
  else .ALWAYS_TAKEN

/-- External branch-type codes shared with the host simulator
(instruction.h; values match ChampSim's branch-type enumeration). -/
def BRANCH_DIRECT_JUMP : Nat := 1

def BRANCH_INDIRECT : Nat := 2

def BRANCH_CONDITIONAL : Nat := 3

def BRANCH_DIRECT_CALL : Nat := 4

def BRANCH_INDIRECT_CALL : Nat := 5

def BRANCH_RETURN : Nat := 6

def BRANCH_OTHER : Nat := 7

/-- The payload of a direct-BTB slot: stored ip, target and branch kind. -/
structure DirectData where
  ip_tag : Nat
  target : Nat
  type : BranchInfo
deriving DecidableEq

/-- One slot of the lru_table: payload plus the last_used counter stamp.
The (set, way) coordinates are positional: slot i sits at set i / ways,
way i % ways. -/
structure LruSlot where
  last_used : Nat
  data : DirectData
deriving DecidableEq

/-- Default-constructed slot (empty: ip_tag 0, branch_info value 0). -/
def emptySlot : LruSlot := ⟨0, ⟨0, 0, .INDIRECT⟩⟩

/-- The direct predictor: a sets × ways lru_table of DirectData plus the
monotonic access counter. -/
structure DirectPred where
  table : List LruSlot
  counter : Nat
deriving DecidableEq

/-- The indirect predictor: target table and conditional history register. -/
structure IndirectPred where
  predictor : List Nat
  history : Nat
deriving DecidableEq

/-- The return stack: deque of predicted return addresses (front = oldest,
back = most recent), per-slot call-size trackers, and the call ip of the
most recent push (used by the calibration model). -/
structure RetStack where
  stack : List Nat
  trackers : List Int
  lastPush : Option Nat
deriving DecidableEq

/-- The whole basic_btb state. -/
structure Core where
  direct : DirectPred
  indirect : IndirectPred
  ras : RetStack
deriving DecidableEq

/-! ### Direct predictor (modelled from the spec, sections 4.1 and 4.2) -/

/-- Set index of an ip: bits [LOG2_BLOCK, LOG2_BLOCK + LOG2_SETS). -/
def setIndex (g : Geometry) (ip : Nat) : Nat := (ip >>> g.logBlock) % g.sets

/-- Tag of an ip: bits [LOG2_BLOCK + LOG2_SETS, infinity). -/
def tagOf (g : Geometry) (ip : Nat) : Nat := ip >>> (g.logBlock + g.logSets)

/-- Whether a slot is a hit for `ip`: valid (non-default ip_tag) with equal
tag. -/
def slotHit (g : Geometry) (s : LruSlot) (ip : Nat) : Bool :=
  s.data.ip_tag != 0 && tagOf g s.data.ip_tag == tagOf g ip

/-- First way in ip's set whose slot hits. -/
def findHitWay (g : Geometry) (d : DirectPred) (ip : Nat) : Option Nat :=
  (List.range g.ways).find? fun w =>
    slotHit g (d.table.getD (setIndex g ip * g.ways + w) emptySlot) ip

/-- Modelled from the spec (section 4.1): lru_table::check_hit returns the
first matching entry of the key's set and freshens its last_used stamp
from the monotonic counter. -/
def checkHit (g : Geometry) (d : DirectPred) (ip : Nat) : Option DirectData × DirectPred :=
  match findHitWay g d ip with
  | none => (none, d)
  | some w =>
    let idx := setIndex g ip * g.ways + w
    let slot := d.table.getD idx emptySlot
    (some slot.data,
      ⟨d.table.set idx ⟨d.counter, slot.data⟩, d.counter + 1⟩)

/-- The way holding the smallest last_used stamp in the set (first minimum),
the LRU victim of section 4.1. -/
def lruVictim (g : Geometry) (d : DirectPred) (base : Nat) : Nat :=
  (List.range g.ways).foldl
    (fun best w =>
      if (d.table.getD (base + w) emptySlot).last_used <
          (d.table.getD (base + best) emptySlot).last_used
        then w else best)
    0

/-- Modelled from the spec (section 4.2): direct_predictor::update
overwrites the matching entry's target and kind if the ip is present, and
otherwise fills the LRU victim of the ip's set; either way the written slot
is stamped with the bumped counter. -/
def directUpdateInfo (g : Geometry) (d : DirectPred) (ip target : Nat) (k : BranchInfo) :
    DirectPred :=
  let base := setIndex g ip * g.ways
  match findHitWay g d ip with
  | some w =>
    let idx := base + w
    let slot := d.table.getD idx emptySlot
    ⟨d.table.set idx ⟨d.counter, ⟨slot.data.ip_tag, target, k⟩⟩, d.counter + 1⟩
  | none =>
    let idx := base + lruVictim g d base
    ⟨d.table.set idx ⟨d.counter, ⟨ip, target, k⟩⟩, d.counter + 1⟩

/-- Modelled from the spec (section 4.5): the mapping from external
branch-type codes to the stored branch_info; unknown codes behave as OTHER. -/
def internalKind (code : Nat) : BranchInfo :=
  if code = BRANCH_INDIRECT ∨ code = BRANCH_INDIRECT_CALL then .INDIRECT
  else if code = BRANCH_RETURN then .RETURN
  else if code = BRANCH_CONDITIONAL then .CONDITIONAL
  else .ALWAYS_TAKEN

/-- direct.update as invoked by update_btb: external code mapped internally. -/
def directUpdate (g : Geometry) (d : DirectPred) (ip target code : Nat) : DirectPred :=
  directUpdateInfo g d ip target (internalKind code)

/-! ### Indirect predictor (modelled from the spec, section 4.3) -/

/-- Table index: (hash of ip XOR history) mod INDIRECT_SIZE, with the
identity hash the reference implementation uses for power-of-two sizes. -/
def indirectIdx (g : Geometry) (ind : IndirectPred) (ip : Nat) : Nat :=
  (Nat.xor ip ind.history) % g.indirSize

/-- indirect_predictor::prediction: always taken, target from the table. -/
def indirectPrediction (g : Geometry) (ind : IndirectPred) (ip : Nat) : Nat × Bool :=
  (ind.predictor.getD (indirectIdx g ind ip) 0, true)

/-- indirect_predictor::update_target. -/
def indirectUpdateTarget (g : Geometry) (ind : IndirectPred) (ip target : Nat) : IndirectPred :=
  ⟨ind.predictor.set (indirectIdx g ind ip) target, ind.history⟩

/-- indirect_predictor::update_direction: shift in the taken bit, keeping
HISTORY_BITS bits. -/
def indirectUpdateDirection (g : Geometry) (ind : IndirectPred) (taken : Bool) : IndirectPred :=
  ⟨ind.predictor, (ind.history * 2 + (if taken then 1 else 0)) % 2 ^ g.histBits⟩

/-! ### Return stack (modelled from the spec, section 4.4) -/

/-- 64-bit wrap-around addition of a signed offset to an address. -/
def addrAdd (a : Nat) (d : Int) : Nat := (((a : Int) + d).emod (2 ^ 64)).toNat

/-- return_stack::push: push call_ip plus the tracked call size for its
slot; when over capacity drop the oldest (front) entry. -/
def rasPush (g : Geometry) (r : RetStack) (ip : Nat) : RetStack :=
  let st := r.stack ++ [addrAdd ip (r.trackers.getD (ip % g.trackerN) 4)]
  ⟨if g.rasMax < st.length then st.tail else st, r.trackers, some ip⟩

/-- return_stack::prediction: pop and return the most recent entry, or
(0, false) on an empty stack. -/
def rasPrediction (r : RetStack) : (Nat × Bool) × RetStack :=
  match r.stack.getLast? with
  | none => ((0, false), r)
  | some a => ((a, true), ⟨r.stack.dropLast, r.trackers, r.lastPush⟩)

/-- Modelled from the spec (section 4.4, policy left implementation-defined
by section 9): calibrate_call_size adjusts the tracker of the most recent
push's call ip to the observed width actual_return_target - call_ip. -/
def rasCalibrate (g : Geometry) (r : RetStack) (target : Nat) : RetStack :=
  match r.lastPush with
  | none => r
  | some cip => ⟨r.stack, r.trackers.set (cip % g.trackerN) ((target : Int) - (cip : Int)), r.lastPush⟩

/-! ### The basic_btb facade (src/btb/basic_btb/basic_btb.cc) -/

/-- basic_btb::btb_prediction. -/
def btbPrediction (g : Geometry) (core : Core) (ip : Nat) : (Nat × Bool) × Core :=
  match checkHit g core.direct ip with
  | (none, d') => ((0, false), { core with direct := d' })
  | (some e, d') =>
    if e.type = BranchInfo.RETURN then
      ((rasPrediction core.ras).1, { core with direct := d', ras := (rasPrediction core.ras).2 })
    else if e.type = BranchInfo.INDIRECT then
      (indirectPrediction g core.indirect ip, { core with direct := d' })
    else
      ((e.target, e.type != BranchInfo.CONDITIONAL), { core with direct := d' })

/-- basic_btb::update_btb. -/
def updateBtb (g : Geometry) (core : Core) (ip target : Nat) (taken : Bool) (code : Nat) :
    Core :=
  let ras1 :=
    if code = BRANCH_DIRECT_CALL ∨ code = BRANCH_INDIRECT_CALL then rasPush g core.ras ip
    else core.ras
  let ind1 :=
    if code = BRANCH_INDIRECT ∨ code = BRANCH_INDIRECT_CALL then
      indirectUpdateTarget g core.indirect ip target
    else core.indirect
  let ind2 := if code = BRANCH_CONDITIONAL then indirectUpdateDirection g ind1 taken else ind1
  let ras2 := if code = BRANCH_RETURN then rasCalibrate g ras1 target else ras1
  ⟨directUpdate g core.direct ip target code, ind2, ras2⟩

/-- The initial (power-on) state: empty table, zeroed indirect table and
history, empty stack, trackers at the default call size 4. -/
def initCore (g : Geometry) : Core :=
  ⟨⟨List.replicate (g.sets * g.ways) emptySlot, 0⟩,
   ⟨List.replicate g.indirSize 0, 0⟩,
   ⟨[], List.replicate g.trackerN 4, none⟩⟩

/-- States reachable from power-on by a sequence of update_btb calls. -/
inductive Reachable (g : Geometry) : Core → Prop
  | init : Reachable g (initCore g)
  | step (core : Core) (ip target : Nat) (taken : Bool) (code : Nat) :
      Reachable g core → Reachable g (updateBtb g core ip target taken code)

/-! ### Checkpoint state (src/inc/btb_checkpoint_types.h)

Field types follow the header: set/way and the geometry counts are long
(Int), last_used and the history are uint64_t (Nat), branch_type is a
uint8_t (Nat below 256 in well-formed states), call sizes are the signed
difference_type (Int). -/

structure DirectEntryC where
  set : Int
  way : Int
  last_used : Nat
  ip_tag : Nat
  target : Nat
  branch_type : Nat
deriving DecidableEq

structure BtbCkpt where
  direct_sets : Int
  direct_ways : Int
  direct_entries : List DirectEntryC
  indirect_table_size : Nat
  indirect_targets : List Nat
  indirect_history : Nat
  return_stack : List Nat
  call_size_tracker_size : Nat
  call_size_trackers : List Int
deriving DecidableEq

/-- Default-constructed btb_checkpoint_state. -/
def emptyCkpt : BtbCkpt := ⟨0, 0, [], 0, [], 0, [], 0, []⟩

/-- basic_btb::checkpoint_contents.  The lru_table enumeration (spec
section 4.1) lists every slot with its positional set and way. -/
def checkpointContents (g : Geometry) (core : Core) : BtbCkpt :=
  { direct_sets := (g.sets : Int)
    direct_ways := (g.ways : Int)
    direct_entries :=
      (List.range core.direct.table.length).map fun i =>
        let slot := core.direct.table.getD i emptySlot
        { set := ((i / g.ways : Nat) : Int)
          way := ((i % g.ways : Nat) : Int)
          last_used := slot.last_used
          ip_tag := slot.data.ip_tag
          target := slot.data.target
          branch_type := encodeBranchInfo slot.data.type }
    indirect_table_size := core.indirect.predictor.length
    indirect_targets := core.indirect.predictor
    indirect_history := core.indirect.history
    return_stack := core.ras.stack
    call_size_tracker_size := core.ras.trackers.length
    call_size_trackers := core.ras.trackers }

/-- An lru_table checkpoint entry, as rebuilt inside restore_checkpoint. -/
structure LruEntryC where
  set : Int
  way : Int
  last_used : Nat
  data : DirectData
deriving DecidableEq

/-- The per-entry conversion loop of basic_btb::restore_checkpoint:
branch_type bytes go through to_branch_info. -/
def toLruEntry (e : DirectEntryC) : LruEntryC :=
  ⟨e.set, e.way, e.last_used, ⟨e.ip_tag, e.target, to_branch_info e.branch_type⟩⟩

/-- Modelled from the spec (section 4.1): lru_table::restore_checkpoint
writes each entry's slot by (set, way) and reseeds the monotonic counter
with max(last_used) + 1.  The spec does not define out-of-range
coordinates; such entries are ignored. -/
def lruRestore (g : Geometry) (d : DirectPred) (entries : List LruEntryC) : DirectPred :=
  let table :=
    entries.foldl
      (fun t e =>
        if 0 ≤ e.set ∧ e.set < (g.sets : Int) ∧ 0 ≤ e.way ∧ e.way < (g.ways : Int) then
          t.set (e.set.toNat * g.ways + e.way.toNat) ⟨e.last_used, e.data⟩
        else t)
      d.table
  ⟨table, (table.foldl (fun m s => max m s.last_used) 0) + 1⟩

/-- The four failure modes of basic_btb::restore_checkpoint, each a
std::out_of_range geometry mismatch in the source. -/
inductive RestoreErr
  | directSets
  | directWays
  | indirectSize
  | callSize
deriving DecidableEq

/-- basic_btb::restore_checkpoint.  The result carries the (possibly
partially overwritten) state together with the error raised, mirroring the
mutation order of the source: the direct table is restored before the
indirect size check, and the indirect table, history and return stack are
restored before the call-size-tracker size check. -/
def restoreCheckpoint (g : Geometry) (st : BtbCkpt) (core : Core) : Core × Option RestoreErr :=
  if st.direct_sets ≠ 0 ∧ st.direct_sets ≠ (g.sets : Int) then
    (core, some RestoreErr.directSets)
  else if st.direct_ways ≠ 0 ∧ st.direct_ways ≠ (g.ways : Int) then
    (core, some RestoreErr.directWays)
  else
    let direct' := lruRestore g core.direct (st.direct_entries.map toLruEntry)
    if st.indirect_targets ≠ [] ∧ st.indirect_targets.length ≠ g.indirSize then
      ({ core with direct := direct' }, some RestoreErr.indirectSize)
    else
      let pred' :=
        if st.indirect_targets.isEmpty then List.replicate g.indirSize 0
        else st.indirect_targets
      let indirect' : IndirectPred := ⟨pred', st.indirect_history % 2 ^ g.histBits⟩
      let stack' :=
        st.return_stack.foldl
          (fun acc a =>
            let acc' := acc ++ [a]
            if g.rasMax < acc'.length then acc'.tail else acc')
          []
      if st.call_size_trackers ≠ [] ∧ st.call_size_trackers.length ≠ g.trackerN then
        (⟨direct', indirect', ⟨stack', core.ras.trackers, core.ras.lastPush⟩⟩,
          some RestoreErr.callSize)
      else
        let trackers' :=
          if st.call_size_trackers.isEmpty then List.replicate g.trackerN 4
          else st.call_size_trackers
        (⟨direct', indirect', ⟨stack', trackers', core.ras.lastPush⟩⟩, none)

/-! ### The reachable-state invariant -/

/-- Structural sizes every reachable core satisfies: the fixed-capacity
containers have their configured lengths, the history fits its register,
and the stack respects RAS_MAX. -/
def Inv (g : Geometry) (core : Core) : Prop :=
  core.direct.table.length = g.sets * g.ways ∧
  core.indirect.predictor.length = g.indirSize ∧
  core.indirect.history < 2 ^ g.histBits ∧
  core.ras.stack.length ≤ g.rasMax ∧
  core.ras.trackers.length = g.trackerN

/-! ### The checkpoint codec (src/src/cache_checkpoint.cc)

The parser is embedded at line granularity: a line is a character list,
istringstream extraction is token splitting on whitespace.  Error values
are plain messages; the line numbers the source interpolates into them are
dropped, and the distinct per-field messages of a record are condensed to
one message per record kind.  Both simplifications only touch the message
text, never whether a line is accepted. -/

def kwCache : List Char := "Cache:".toList

def kwEndCache : List Char := "EndCache".toList

def kwHash : List Char := "#".toList

def kwBTB : List Char := "BTB:".toList

def kwEndBTB : List Char := "EndBTB".toList

def kwCPU : List Char := "CPU".toList

def kwSetColon : List Char := "Set:".toList

def kwWayColon : List Char := "Way:".toList

def kwAddress : List Char := "Address:".toList

def kwDirectGeometry : List Char := "DirectGeometry:".toList

def kwSetsPlain : List Char := "Sets".toList

def kwWaysPlain : List Char := "Ways".toList

def kwDirectEntry : List Char := "DirectEntry:".toList

def kwSetPlain : List Char := "Set".toList

def kwWayPlain : List Char := "Way".toList

def kwLastUsed : List Char := "LastUsed".toList

def kwIP : List Char := "IP:".toList

def kwTarget : List Char := "Target:".toList

def kwType : List Char := "Type:".toList

def kwIndirectSize : List Char := "IndirectSize:".toList

def kwIndirectHistory : List Char := "IndirectHistory:".toList

def kwIndirectEntry : List Char := "IndirectEntry:".toList

def kwIndex : List Char := "Index".toList

def kwReturnStackEntry : List Char := "ReturnStackEntry:".toList

def kwCSTSize : List Char := "CallSizeTrackerSize:".toList

def kwCST : List Char := "CallSizeTracker:".toList

def kwSizePlain : List Char := "Size".toList

/-- One parsed cache block line (the out-of-scope Cache sections keep only
what the Set: records carry; valid and v_address are implied). -/
structure CacheEntry where
  set : Int
  way : Int
  address : Nat
deriving DecidableEq

/-- Association-list embedding of std::unordered_map. -/
def alLookup {κ β : Type} [DecidableEq κ] (k : κ) : List (κ × β) → Option β
  | [] => none
  | (k', v) :: t => if k' = k then some v else alLookup k t

/-- operator[] used only to default-create an entry. -/
def alEnsure {κ β : Type} [DecidableEq κ] (k : κ) (dflt : β) (l : List (κ × β)) :
    List (κ × β) :=
  match alLookup k l with
  | some _ => l
  | none => l ++ [(k, dflt)]

def alModify {κ β : Type} [DecidableEq κ] (k : κ) (f : β → β) : List (κ × β) → List (κ × β)
  | [] => []
  | (k', v) :: t => if k' = k then (k', f v) :: t else (k', v) :: alModify k f t

/-- operator[] followed by mutation through the returned reference. -/
def alModifyD {κ β : Type} [DecidableEq κ] (k : κ) (dflt : β) (f : β → β)
    (l : List (κ × β)) : List (κ × β) :=
  match alLookup k l with
  | some _ => alModify k f l
  | none => l ++ [(k, f dflt)]

/-- The loop state of load_cache_checkpoint: cache map, active cache name
(empty = none), active BTB cpu (-1 = none), and the BTB checkpoint map. -/
structure PState where
  caches : List (List Char × List CacheEntry)
  currentCache : List Char
  currentBtb : Int
  btbs : List (Int × BtbCkpt)
deriving DecidableEq

def initPState : PState := ⟨[], [], -1, []⟩

/-- Read a token and require it to equal a keyword. -/
def expectTok (kw : List Char) : List (List Char) → Option (List (List Char))
  | t :: r => if t = kw then some r else none
  | [] => none

def takeNatTok : List (List Char) → Option (Nat × List (List Char))
  | t :: r => (parseNatTok t).map fun n => (n, r)
  | [] => none

def takeIntTok : List (List Char) → Option (Int × List (List Char))
  | t :: r => (parseIntTok t).map fun i => (i, r)
  | [] => none

def takeAddrTok : List (List Char) → Option (Nat × List (List Char))
  | t :: r => (parseAddrTok t).map fun a => (a, r)
  | [] => none

/-- std::vector::resize: truncate or pad with a default. -/
def vecResize {α : Type} (l : List α) (n : Nat) (dflt : α) : List α :=
  if n ≤ l.length then l.take n else l ++ List.replicate (n - l.length) dflt

/-- Outcome of dispatching a line inside an active BTB section. -/
inductive BtbRec
  | unknown
  | bad
  | upd (f : BtbCkpt → BtbCkpt)

/-- The eight record kinds accepted inside a BTB: section, with the field
sequences and the out-of-range index growth of the source loops. -/
def parseBtbRecord (tok : List Char) (toks : List (List Char)) : BtbRec :=
  if tok = kwDirectGeometry then
    match (do
      let r ← expectTok kwSetsPlain toks
      let (s, r) ← takeIntTok r
      let r ← expectTok kwWaysPlain r
      let (w, _) ← takeIntTok r
      pure (s, w) : Option (Int × Int)) with
    | some (s, w) => .upd fun st => { st with direct_sets := s, direct_ways := w }
    | none => .bad
  else if tok = kwDirectEntry then
    match (do
      let r ← expectTok kwSetPlain toks
      let (s, r) ← takeIntTok r
      let r ← expectTok kwWayPlain r
      let (w, r) ← takeIntTok r
      let r ← expectTok kwLastUsed r
      let (lu, r) ← takeNatTok r
      let r ← expectTok kwIP r
      let (ip, r) ← takeAddrTok r
      let r ← expectTok kwTarget r
      let (tg, r) ← takeAddrTok r
      let r ← expectTok kwType r
      let (bt, _) ← takeIntTok r
      pure (⟨s, w, lu, ip, tg, (bt.emod 256).toNat⟩ : DirectEntryC) : Option DirectEntryC) with
    | some e => .upd fun st => { st with direct_entries := st.direct_entries ++ [e] }
    | none => .bad
  else if tok = kwIndirectSize then
    match takeNatTok toks with
    | some (n, _) =>
      .upd fun st =>
        { st with indirect_table_size := n, indirect_targets := vecResize st.indirect_targets n 0 }
    | none => .bad
  else if tok = kwIndirectHistory then
    match takeNatTok toks with
    | some (h, _) => .upd fun st => { st with indirect_history := h }
    | none => .bad
  else if tok = kwIndirectEntry then
    match (do
      let r ← expectTok kwIndex toks
      let (i, r) ← takeNatTok r
      let r ← expectTok kwTarget r
      let (a, _) ← takeAddrTok r
      pure (i, a) : Option (Nat × Nat)) with
    | some (i, a) =>
      .upd fun st =>
        let tg :=
          if st.indirect_targets.length ≤ i then vecResize st.indirect_targets (i + 1) 0
          else st.indirect_targets
        { st with indirect_targets := tg.set i a }
    | none => .bad
  else if tok = kwReturnStackEntry then
    match takeAddrTok toks with
    | some (a, _) => .upd fun st => { st with return_stack := st.return_stack ++ [a] }
    | none => .bad
  else if tok = kwCSTSize then
    match takeNatTok toks with
    | some (n, _) =>
      .upd fun st =>
        { st with call_size_tracker_size := n,
                  call_size_trackers := vecResize st.call_size_trackers n 0 }
    | none => .bad
  else if tok = kwCST then
    match (do
      let r ← expectTok kwIndex toks
      let (i, r) ← takeNatTok r
      let r ← expectTok kwSizePlain r
      let (v, _) ← takeIntTok r
      pure (i, v) : Option (Nat × Int)) with
    | some (i, v) =>
      .upd fun st =>
        let tr :=
          if st.call_size_trackers.length ≤ i then vecResize st.call_size_trackers (i + 1) 0
          else st.call_size_trackers
        { st with call_size_trackers := tr.set i v }
    | none => .bad
  else .unknown

/-- The Set: record of a cache section. -/
def parseCacheSetRecord (toks : List (List Char)) : Option CacheEntry := do
  let (s, r) ← takeIntTok toks
  let r ← expectTok kwWayColon r
  let (w, r) ← takeIntTok r
  let r ← expectTok kwAddress r
  let (a, _) ← takeAddrTok r
  pure ⟨s, w, a⟩

/-- Dispatch on the first token of a trimmed, non-blank line, in the exact
order of the source: Cache:, EndCache, lone #, BTB:, EndBTB, then the BTB
records when a BTB section is active, then Set:, then the fatal
unexpected-token case. -/
def parseLineCore (st : PState) (tok restRaw : List Char) : Except String PState :=
  if tok = kwCache then
    let name := trimChars restRaw
    .ok { st with currentCache := name, caches := alEnsure name [] st.caches }
  else if tok = kwEndCache then .ok { st with currentCache := [] }
  else if tok = kwHash then .ok st
  else if tok = kwBTB then
    match tokenize restRaw with
    | lbl :: rest =>
      if lbl = kwCPU then
        match rest with
        | idTok :: _ =>
          match parseIntTok idTok with
          | some cpu =>
            .ok { st with currentBtb := cpu, btbs := alEnsure cpu emptyCkpt st.btbs }
          | none => .error "missing CPU id for BTB section"
        | [] => .error "missing CPU id for BTB section"
      else .error "expected CPU after BTB:"
    | [] => .error "expected CPU after BTB:"
  else if tok = kwEndBTB then
    if st.currentBtb < 0 then .error "EndBTB without active BTB section"
    else .ok { st with currentBtb := -1 }
  else if 0 ≤ st.currentBtb then
    match parseBtbRecord tok (tokenize restRaw) with
    | .upd f => .ok { st with btbs := alModifyD st.currentBtb emptyCkpt f st.btbs }
    | .bad => .error "malformed BTB record"
    | .unknown => .error "unexpected BTB token"
  else if tok = kwSetColon then
    if st.currentCache = [] then .error "Set entry without active cache"
    else
      match parseCacheSetRecord (tokenize restRaw) with
      | some e =>
        .ok { st with caches := alModifyD st.currentCache [] (fun l => l ++ [e]) st.caches }
      | none => .error "malformed Set entry"
  else .error "unexpected token"

/-- One iteration of the getline loop: trim, skip blank lines and empty
tokens, then dispatch on the first token. -/
def parseLine (st : PState) (line : List Char) : Except String PState :=
  if trimChars line = [] then .ok st
  else if (trimChars line).takeWhile (fun c => !isSp c) = [] then .ok st
  else
    parseLineCore st ((trimChars line).takeWhile fun c => !isSp c)
      ((trimChars line).dropWhile fun c => !isSp c)

/-- The whole getline loop of load_cache_checkpoint. -/
def runLines : PState → List (List Char) → Except String PState
  | st, [] => .ok st
  | st, l :: ls =>
    match parseLine st l with
    | .error e => .error e
    | .ok st' => runLines st' ls

/-- The BTB checkpoint recovered for one cpu after parsing a whole file. -/
def parsedBtb (lines : List (List Char)) (cpu : Int) : Option BtbCkpt :=
  match runLines initPState lines with
  | .ok st => alLookup cpu st.btbs
  | .error _ => none

/-! ### The emitter (save_cache_checkpoint, BTB section) -/

def indent2 : List Char := [' ', ' ']

/-- The lines save_cache_checkpoint prints for one cpu's BTB state, in
source order: header, geometry and size lines, then the four entry loops,
then EndBTB. -/
def emitBtbLines (cpu : Nat) (s : BtbCkpt) : List (List Char) :=
  [tokensToLine [kwBTB, kwCPU, natDigits 10 cpu],
   indent2 ++ tokensToLine
     [kwDirectGeometry, kwSetsPlain, intDigits s.direct_sets, kwWaysPlain, intDigits s.direct_ways],
   indent2 ++ tokensToLine [kwIndirectSize, natDigits 10 s.indirect_table_size],
   indent2 ++ tokensToLine [kwIndirectHistory, natDigits 10 s.indirect_history],
   indent2 ++ tokensToLine [kwCSTSize, natDigits 10 s.call_size_tracker_size]]
  ++ s.direct_entries.map (fun e =>
      indent2 ++ tokensToLine
        [kwDirectEntry, kwSetPlain, intDigits e.set, kwWayPlain, intDigits e.way,
         kwLastUsed, natDigits 10 e.last_used, kwIP, addrDigits e.ip_tag,
         kwTarget, addrDigits e.target, kwType, natDigits 10 e.branch_type])
  ++ s.indirect_targets.enum.map (fun p =>
      indent2 ++ tokensToLine [kwIndirectEntry, kwIndex, natDigits 10 p.1, kwTarget, addrDigits p.2])
  ++ s.return_stack.map (fun a => indent2 ++ tokensToLine [kwReturnStackEntry, addrDigits a])
  ++ s.call_size_trackers.enum.map (fun p =>
      indent2 ++ tokensToLine [kwCST, kwIndex, natDigits 10 p.1, kwSizePlain, intDigits p.2])
  ++ [kwEndBTB]

/-- The raw stream remainder after the first token of an emitted line. -/
def lineRest : List (List Char) → List Char
  | [] => []
  | ts => ' ' :: tokensToLine ts

/-- The effect of one successful in-section record line on the loop state. -/
def applyUpd (st : PState) (f : BtbCkpt → BtbCkpt) : PState :=
  { st with btbs := alModifyD st.currentBtb emptyCkpt f st.btbs }

/-- The body of an emitted BTB section, as pairs of a line and the
checkpoint update it parses to. -/
def midPairs (s : BtbCkpt) : List (List Char × (BtbCkpt → BtbCkpt)) :=
  [(indent2 ++ tokensToLine
      [kwDirectGeometry, kwSetsPlain, intDigits s.direct_sets, kwWaysPlain,
        intDigits s.direct_ways],
    fun b => { b with direct_sets := s.direct_sets, direct_ways := s.direct_ways }),
   (indent2 ++ tokensToLine [kwIndirectSize, natDigits 10 s.indirect_table_size],
    fun b => { b with indirect_table_size := s.indirect_table_size,
                      indirect_targets := vecResize b.indirect_targets s.indirect_table_size 0 }),
   (indent2 ++ tokensToLine [kwIndirectHistory, natDigits 10 s.indirect_history],
    fun b => { b with indirect_history := s.indirect_history }),
   (indent2 ++ tokensToLine [kwCSTSize, natDigits 10 s.call_size_tracker_size],
    fun b => { b with call_size_tracker_size := s.call_size_tracker_size,
                      call_size_trackers := vecResize b.call_size_trackers s.call_size_tracker_size 0 })]
  ++ s.direct_entries.map (fun e =>
      (indent2 ++ tokensToLine
        [kwDirectEntry, kwSetPlain, intDigits e.set, kwWayPlain, intDigits e.way,
         kwLastUsed, natDigits 10 e.last_used, kwIP, addrDigits e.ip_tag,
         kwTarget, addrDigits e.target, kwType, natDigits 10 e.branch_type],
       fun b => { b with direct_entries := b.direct_entries ++ [e] }))
  ++ s.indirect_targets.enum.map (fun p =>
      (indent2 ++ tokensToLine [kwIndirectEntry, kwIndex, natDigits 10 p.1, kwTarget, addrDigits p.2],
       fun b =>
         let tg :=
           if b.indirect_targets.length ≤ p.1 then vecResize b.indirect_targets (p.1 + 1) 0
           else b.indirect_targets
         { b with indirect_targets := tg.set p.1 p.2 }))
  ++ s.return_stack.map (fun a =>
      (indent2 ++ tokensToLine [kwReturnStackEntry, addrDigits a],
       fun b => { b with return_stack := b.return_stack ++ [a] }))
  ++ s.call_size_trackers.enum.map (fun p =>
      (indent2 ++ tokensToLine [kwCST, kwIndex, natDigits 10 p.1, kwSizePlain, intDigits p.2],
       fun b =>
         let tr :=
           if b.call_size_trackers.length ≤ p.1 then vecResize b.call_size_trackers (p.1 + 1) 0
           else b.call_size_trackers
         { b with call_size_trackers := tr.set p.1 p.2 }))

/-! ### Concrete instances for witnesses and counterexamples -/

/-- A minimal geometry: 1 set, 1 way, indirect size 1, history 0 bits,
1 call-size tracker, RAS capacity 1. -/
def g0 : Geometry := ⟨0, 0, 0, 0, 1, 1, 1, by decide, by decide⟩

/-- A core whose single direct slot holds a RETURN entry for ip 1. -/
def coreR : Core :=
  ⟨⟨[⟨0, ⟨1, 7, BranchInfo.RETURN⟩⟩], 5⟩, ⟨[0], 0⟩, ⟨[], [4], none⟩⟩

def e0 : DirectData := ⟨1, 7, BranchInfo.RETURN⟩

def d0 : DirectPred := ⟨[⟨5, ⟨1, 7, BranchInfo.RETURN⟩⟩], 6⟩

/-- A checkpoint whose direct set count and call-size tracker length are
both wrong for g0. -/
def st8bad : BtbCkpt := ⟨99, 0, [⟨0, 0, 5, 7, 9, 3⟩], 0, [], 0, [], 0, [1, 2, 3]⟩

/-- A checkpoint passing every check before the tracker-size check and
failing that one. -/
def st8w : BtbCkpt := ⟨0, 0, [⟨0, 0, 5, 7, 9, 3⟩], 0, [], 6, [11], 0, [1, 2]⟩

/-! ### Claims -/

/-! ### Theorems -/

/-! ### Theorems -/

theorem foldDigits_append (b : Nat) (cs : List Char) (c : Char) :
    foldDigits b (cs ++ [c]) =
      (foldDigits b cs).bind fun n => (digVal b c).map fun d => n * b + d := by
  simp only [foldDigits, List.foldl_append, List.foldl_cons, List.foldl_nil]

theorem digVal_digCh_ten : ∀ d < 10, digVal 10 (digCh d) = some d := by decide

theorem digVal_digCh_sixteen : ∀ d < 16, digVal 16 (digCh d) = some d := by decide

theorem foldDigits_natDigitsAux (b : Nat) (hb : 2 ≤ b)
    (hd : ∀ d < b, digVal b (digCh d) = some d) :
    ∀ fuel n, n ≤ fuel → foldDigits b (natDigitsAux b fuel n) = some n := by
  intro fuel
  induction fuel with
  | zero =>
    intro n hn
    have hn0 : n = 0 := Nat.le_zero.mp hn
    subst hn0
    simp only [natDigitsAux, foldDigits, List.foldl_cons, List.foldl_nil]
    rw [Nat.zero_mod, hd 0 (by omega)]
    simp
  | succ f ih =>
    intro n hn
    simp only [natDigitsAux]
    by_cases h : n < b
    · simp only [if_pos h, foldDigits, List.foldl_cons, List.foldl_nil]
      rw [hd n h]
      simp
    · rw [if_neg h, foldDigits_append, ih (n / b) ?_, hd (n % b) (Nat.mod_lt n (by omega))]
      · simp only [Option.some_bind, Option.map_some', Option.some.injEq]
        rw [Nat.mul_comm (n / b) b]
        exact Nat.div_add_mod n b
      · have : n / b < n := Nat.div_lt_self (by omega) (by omega)
        omega

theorem natDigits_ne_nil (b n : Nat) : natDigits b n ≠ [] := by
  unfold natDigits
  cases n with
  | zero => simp [natDigitsAux]
  | succ m =>
    simp only [natDigitsAux]
    by_cases h : m + 1 < b
    · simp [if_pos h]
    · rw [if_neg h]
      exact List.append_ne_nil_of_right_ne_nil _ (by simp)

theorem parseBase_eq_fold (b : Nat) (cs : List Char) (h : cs ≠ []) :
    parseBase b cs = foldDigits b cs := by
  cases cs with
  | nil => exact absurd rfl h
  | cons c cs => rfl

theorem parseBase_natDigits_ten (n : Nat) : parseBase 10 (natDigits 10 n) = some n := by
  rw [parseBase_eq_fold 10 _ (natDigits_ne_nil 10 n)]
  exact foldDigits_natDigitsAux 10 (by omega) digVal_digCh_ten n n (Nat.le_refl n)

theorem parseBase_natDigits_sixteen (n : Nat) : parseBase 16 (natDigits 16 n) = some n := by
  rw [parseBase_eq_fold 16 _ (natDigits_ne_nil 16 n)]
  exact foldDigits_natDigitsAux 16 (by omega) digVal_digCh_sixteen n n (Nat.le_refl n)

theorem parseIntTok_cons (c : Char) (rest : List Char) :
    parseIntTok (c :: rest) =
      if c = '-' then (parseBase 10 rest).map (fun n => -(n : Int))
      else (parseBase 10 (c :: rest)).map (fun n => (n : Int)) := rfl

theorem parseAddrTok_cons2 (c d : Char) (rest : List Char) :
    parseAddrTok (c :: d :: rest) =
      if c = '0' then (if d = 'x' ∨ d = 'X' then parseBase 16 rest else parseBase 8 (d :: rest))
      else parseBase 10 (c :: d :: rest) := rfl

theorem parseAddrTok_addrDigits (a : Nat) : parseAddrTok (addrDigits a) = some a := by
  show parseAddrTok ('0' :: 'x' :: natDigits 16 a) = some a
  rw [parseAddrTok_cons2, if_pos rfl, if_pos (Or.inl rfl)]
  exact parseBase_natDigits_sixteen a

theorem tokenizeAux_nonsp (t : List Char) (h : ∀ c ∈ t, isSp c = false) :
    ∀ rest acc, tokenizeAux (t ++ rest) acc = tokenizeAux rest (t.reverse ++ acc) := by
  induction t with
  | nil => intro rest acc; simp
  | cons c t ih =>
    intro rest acc
    have hc : isSp c = false := h c (by simp)
    have hstep : tokenizeAux (c :: (t ++ rest)) acc = tokenizeAux (t ++ rest) (c :: acc) := by
      simp [tokenizeAux, hc]
    rw [List.cons_append, hstep, ih (fun d hd => h d (by simp [hd])) rest (c :: acc),
      List.reverse_cons, List.append_assoc]
    rfl

theorem tokenize_tokensToLine :
    ∀ toks, (∀ t ∈ toks, WfTok t) → tokenize (tokensToLine toks) = toks := by
  intro toks
  induction toks with
  | nil => intro _; rfl
  | cons t ts ih =>
    intro hwf
    obtain ⟨htne, htns⟩ := hwf t (by simp)
    cases ts with
    | nil =>
      show tokenize (tokensToLine [t]) = [t]
      unfold tokensToLine tokenize
      rw [show t = t ++ ([] : List Char) by simp, tokenizeAux_nonsp t htns [] []]
      simp only [tokenizeAux, List.append_nil]
      rw [if_neg (by simp [htne])]
      simp
    | cons u us =>
      show tokenize (t ++ ' ' :: tokensToLine (u :: us)) = t :: u :: us
      unfold tokenize
      rw [tokenizeAux_nonsp t htns _ []]
      simp only [tokenizeAux, isSp, List.append_nil]
      rw [if_pos (by decide), if_neg (by simp [htne])]
      have := ih (fun x hx => hwf x (by simp [hx]))
      unfold tokenize at this
      rw [this]
      simp

theorem takeWhile_nonsp_self (t : List Char) (h : ∀ c ∈ t, isSp c = false) :
    t.takeWhile (fun c => !isSp c) = t := by
  induction t with
  | nil => rfl
  | cons c cs ih =>
    simp only [List.takeWhile_cons, h c (by simp), Bool.not_false, if_true]
    rw [ih (fun d hd => h d (by simp [hd]))]

theorem dropWhile_nonsp_self (t : List Char) (h : ∀ c ∈ t, isSp c = false) :
    t.dropWhile (fun c => !isSp c) = [] := by
  induction t with
  | nil => rfl
  | cons c cs ih =>
    simp only [List.dropWhile_cons, h c (by simp), Bool.not_false, if_true]
    exact ih (fun d hd => h d (by simp [hd]))

theorem takeWhile_nonsp_app (t rest : List Char) (h : ∀ c ∈ t, isSp c = false) :
    (t ++ ' ' :: rest).takeWhile (fun c => !isSp c) = t ∧
      (t ++ ' ' :: rest).dropWhile (fun c => !isSp c) = ' ' :: rest := by
  induction t with
  | nil => constructor <;> simp [isSp]
  | cons c cs ih =>
    obtain ⟨ih1, ih2⟩ := ih (fun d hd => h d (by simp [hd]))
    constructor
    · simp only [List.cons_append, List.takeWhile_cons, h c (by simp), Bool.not_false, if_true, ih1]
    · simp only [List.cons_append, List.dropWhile_cons, h c (by simp), Bool.not_false, if_true, ih2]

theorem dropWhile_sp_app (l1 l2 : List Char) (h : ∀ c ∈ l1, isSp c = true) :
    (l1 ++ l2).dropWhile isSp = l2.dropWhile isSp := by
  induction l1 with
  | nil => simp
  | cons c cs ih =>
    simp only [List.cons_append, List.dropWhile_cons, h c (by simp), if_true]
    exact ih (fun d hd => h d (by simp [hd]))

theorem tokensToLine_rev_head :
    ∀ toks, toks ≠ [] → (∀ t ∈ toks, WfTok t) →
      ∃ c rest, (tokensToLine toks).reverse = c :: rest ∧ isSp c = false := by
  intro toks
  induction toks with
  | nil => intro h; exact absurd rfl h
  | cons t ts ih =>
    intro _ hwf
    cases ts with
    | nil =>
      obtain ⟨htne, htns⟩ := hwf t (by simp)
      have hrne : t.reverse ≠ [] := by simpa using htne
      obtain ⟨c, rest, hrev⟩ := List.exists_cons_of_ne_nil hrne
      refine ⟨c, rest, ?_, htns c ?_⟩
      · show t.reverse = c :: rest
        exact hrev
      · have : c ∈ t.reverse := by rw [hrev]; simp
        simpa using this
    | cons u us =>
      obtain ⟨c, rest, hrev, hc⟩ := ih (by simp) (fun x hx => hwf x (by simp [hx]))
      refine ⟨c, rest ++ ' ' :: t.reverse, ?_, hc⟩
      show (t ++ ' ' :: tokensToLine (u :: us)).reverse = _
      rw [List.reverse_append, List.reverse_cons, hrev]
      simp

theorem trimChars_built (sps : List Char) (hs : ∀ c ∈ sps, isSp c = true)
    (toks : List (List Char)) (hne : toks ≠ []) (hwf : ∀ t ∈ toks, WfTok t) :
    trimChars (sps ++ tokensToLine toks) = tokensToLine toks := by
  unfold trimChars
  rw [dropWhile_sp_app sps _ hs]
  obtain ⟨c0, rest0, hhead⟩ : ∃ c0 rest0, tokensToLine toks = c0 :: rest0 ∧ isSp c0 = false := by
    cases toks with
    | nil => exact absurd rfl hne
    | cons t ts =>
      obtain ⟨htne, htns⟩ := hwf t (by simp)
      obtain ⟨c, cs, hc⟩ := List.exists_cons_of_ne_nil htne
      cases ts with
      | nil => exact ⟨c, cs, by simp [tokensToLine, hc], htns c (by simp [hc])⟩
      | cons u us =>
        refine ⟨c, cs ++ ' ' :: tokensToLine (u :: us), ?_, htns c (by simp [hc])⟩
        show t ++ ' ' :: tokensToLine (u :: us) = _
        rw [hc]
        simp
  obtain ⟨hh, hc0⟩ := hhead
  rw [hh, List.dropWhile_cons, hc0]
  simp only [Bool.false_eq_true, if_false]
  rw [← hh]
  obtain ⟨c, rest, hrev, hcsp⟩ := tokensToLine_rev_head toks hne hwf
  rw [hrev, List.dropWhile_cons, hcsp]
  simp only [Bool.false_eq_true, if_false]
  rw [← hrev]
  simp

theorem initCore_inv (g : Geometry) : Inv g (initCore g) := by
  refine ⟨?_, ?_, ?_, ?_, ?_⟩ <;> simp [initCore, Nat.one_le_two_pow]

theorem tokenize_lineRest (toks : List (List Char)) (hwf : ∀ t ∈ toks, WfTok t) :
    tokenize (lineRest toks) = toks := by
  cases toks with
  | nil => rfl
  | cons t ts =>
    show tokenize (' ' :: tokensToLine (t :: ts)) = t :: ts
    have : tokenize (' ' :: tokensToLine (t :: ts)) = tokenize (tokensToLine (t :: ts)) := by
      simp [tokenize, tokenizeAux, isSp]
    rw [this, tokenize_tokensToLine (t :: ts) hwf]

theorem emit_eq_midPairs (cpu : Nat) (s : BtbCkpt) :
    emitBtbLines cpu s =
      tokensToLine [kwBTB, kwCPU, natDigits 10 cpu] ::
        ((midPairs s).map Prod.fst ++ [kwEndBTB]) := by
  simp only [emitBtbLines, midPairs, List.map_append, List.map_map, List.map_cons,
    List.map_nil, List.cons_append, List.append_assoc, List.nil_append]
  rfl

theorem foldl_map_snd {α : Type} (L : List α) (line : α → List Char)
    (F : α → BtbCkpt → BtbCkpt) :
    ∀ b : BtbCkpt,
      (L.map fun x => (line x, F x)).foldl (fun acc a => a.2 acc) b =
        L.foldl (fun acc x => F x acc) b := by
  induction L with
  | nil => intro b; rfl
  | cons x L ih =>
    intro b
    simp only [List.map_cons, List.foldl_cons]
    exact ih (F x b)

/-- Every character produced by the digit renderers is a digit or a
lowercase hex letter; in particular it is not whitespace and not a sign. -/
theorem digCh_not_sp (d : Nat) (hd : d < 16) : isSp (digCh d) = false := by
  interval_cases d <;> decide

theorem natDigitsAux_chars (b : Nat) (hb : b ≤ 16) (hb2 : 2 ≤ b) :
    ∀ fuel n c, c ∈ natDigitsAux b fuel n → ∃ d, d < 16 ∧ c = digCh d := by
  intro fuel
  induction fuel with
  | zero =>
    intro n c hc
    simp only [natDigitsAux, List.mem_singleton] at hc
    exact ⟨n % b, by have := Nat.mod_lt n (show 0 < b by omega); omega, hc⟩
  | succ f ih =>
    intro n c hc
    simp only [natDigitsAux] at hc
    by_cases h : n < b
    · rw [if_pos h] at hc
      simp only [List.mem_singleton] at hc
      exact ⟨n, by omega, hc⟩
    · rw [if_neg h] at hc
      rcases List.mem_append.mp hc with h1 | h2
      · exact ih (n / b) c h1
      · simp only [List.mem_singleton] at h2
        exact ⟨n % b, by have := Nat.mod_lt n (show 0 < b by omega); omega, h2⟩

theorem natDigits_not_sp (b n : Nat) (hb : b ≤ 16) (hb2 : 2 ≤ b) :
    ∀ c ∈ natDigits b n, isSp c = false := by
  intro c hc
  obtain ⟨d, hd, rfl⟩ := natDigitsAux_chars b hb hb2 n n c hc
  exact digCh_not_sp d hd

/-- update_btb leaves exactly one write on the direct predictor: the
internal mapping of the external code. -/
theorem updateBtb_direct_eq (g : Geometry) (core : Core) (ip target : Nat) (taken : Bool)
    (code : Nat) :
    (updateBtb g core ip target taken code).direct =
      directUpdateInfo g core.direct ip target (internalKind code) := rfl

/-- The indirect predictor after update_btb, by external code. -/
theorem updateBtb_indirect_eq (g : Geometry) (core : Core) (ip target : Nat) (taken : Bool)
    (code : Nat) :
    (updateBtb g core ip target taken code).indirect =
      if code = BRANCH_INDIRECT ∨ code = BRANCH_INDIRECT_CALL then
        indirectUpdateTarget g core.indirect ip target
      else if code = BRANCH_CONDITIONAL then indirectUpdateDirection g core.indirect taken
      else core.indirect := by
  by_cases h1 : code = BRANCH_INDIRECT ∨ code = BRANCH_INDIRECT_CALL
  · have h2 : ¬code = BRANCH_CONDITIONAL := by
      rcases h1 with h | h <;> subst h <;> decide
    simp [updateBtb, h1, h2]
  · by_cases h2 : code = BRANCH_CONDITIONAL
    · subst h2
      simp [updateBtb,
        (show ¬(BRANCH_CONDITIONAL = BRANCH_INDIRECT ∨
            BRANCH_CONDITIONAL = BRANCH_INDIRECT_CALL) from by decide)]
    · simp [updateBtb, h1, h2]

/-- The return stack after update_btb, by external code. -/
theorem updateBtb_ras_eq (g : Geometry) (core : Core) (ip target : Nat) (taken : Bool)
    (code : Nat) :
    (updateBtb g core ip target taken code).ras =
      if code = BRANCH_DIRECT_CALL ∨ code = BRANCH_INDIRECT_CALL then rasPush g core.ras ip
      else if code = BRANCH_RETURN then rasCalibrate g core.ras target
      else core.ras := by
  by_cases h1 : code = BRANCH_DIRECT_CALL ∨ code = BRANCH_INDIRECT_CALL
  · have h2 : ¬code = BRANCH_RETURN := by
      rcases h1 with h | h <;> subst h <;> decide
    simp [updateBtb, h1, h2]
  · by_cases h2 : code = BRANCH_RETURN
    · subst h2
      simp [updateBtb,
        (show ¬(BRANCH_RETURN = BRANCH_DIRECT_CALL ∨
            BRANCH_RETURN = BRANCH_INDIRECT_CALL) from by decide)]
    · simp [updateBtb, h1, h2]

theorem updateBtb_inv (g : Geometry) (core : Core) (ip target : Nat) (taken : Bool)
    (code : Nat) (h : Inv g core) : Inv g (updateBtb g core ip target taken code) := by
  obtain ⟨h1, h2, h3, h4, h5⟩ := h
  refine ⟨?_, ?_, ?_, ?_, ?_⟩
  · rw [updateBtb_direct_eq]
    unfold directUpdateInfo
    cases findHitWay g core.direct ip <;> simp [h1]
  · rw [updateBtb_indirect_eq]
    split
    · simp [indirectUpdateTarget, h2]
    · split <;> simp [indirectUpdateDirection, h2]
  · rw [updateBtb_indirect_eq]
    split
    · simpa [indirectUpdateTarget] using h3
    · split
      · exact Nat.mod_lt _ (Nat.pos_pow_of_pos _ (by omega))
      · exact h3
  · rw [updateBtb_ras_eq]
    split
    · simp only [rasPush]
      split
      · rename_i hlt
        simp only [List.length_tail, List.length_append, List.length_singleton] at *
        omega
      · rename_i hlt
        simp only [List.length_append, List.length_singleton] at *
        omega
    · split
      · unfold rasCalibrate
        cases core.ras.lastPush <;> simpa using h4
      · exact h4
  · rw [updateBtb_ras_eq]
    split
    · simpa [rasPush] using h5
    · split
      · unfold rasCalibrate
        cases core.ras.lastPush <;> simp [h5]
      · exact h5

theorem reachable_inv (g : Geometry) (core : Core) (h : Reachable g core) : Inv g core := by
  induction h with
  | init => exact initCore_inv g
  | step core ip target taken code _ ih => exact updateBtb_inv g core ip target taken code ih

theorem parseNatTok_natDigits (n : Nat) : parseNatTok (natDigits 10 n) = some n :=
  parseBase_natDigits_ten n

theorem wfTok_natDigits (n : Nat) : WfTok (natDigits 10 n) :=
  ⟨natDigits_ne_nil 10 n, natDigits_not_sp 10 n (by omega) (by omega)⟩

theorem wfTok_hexDigits (n : Nat) : WfTok (natDigits 16 n) :=
  ⟨natDigits_ne_nil 16 n, natDigits_not_sp 16 n (by omega) (by omega)⟩

theorem wfTok_intDigits (i : Int) : WfTok (intDigits i) := by
  unfold intDigits
  by_cases h : i < 0
  · rw [if_pos h]
    refine ⟨by simp, ?_⟩
    intro c hc
    rcases List.mem_cons.mp hc with h1 | h2
    · subst h1; decide
    · exact natDigits_not_sp 10 _ (by omega) (by omega) c h2
  · rw [if_neg h]
    exact wfTok_natDigits _

theorem wfTok_addrDigits (a : Nat) : WfTok (addrDigits a) := by
  refine ⟨by simp [addrDigits], ?_⟩
  intro c hc
  rcases List.mem_cons.mp hc with h1 | hc2
  · subst h1; decide
  · rcases List.mem_cons.mp hc2 with h2 | h3
    · subst h2; decide
    · exact natDigits_not_sp 16 _ (by omega) (by omega) c h3

/-- Reading one emitted line reduces to the core dispatch on its leading
token, with the remainder in `lineRest` form. -/
theorem parseLine_built (st : PState) (sps : List Char) (hs : ∀ c ∈ sps, isSp c = true)
    (tok : List Char) (toks : List (List Char)) (htok : WfTok tok)
    (htoks : ∀ t ∈ toks, WfTok t) :
    parseLine st (sps ++ tokensToLine (tok :: toks)) = parseLineCore st tok (lineRest toks) := by
  have hwfall : ∀ t ∈ tok :: toks, WfTok t := by
    intro t ht
    rcases List.mem_cons.mp ht with h | h
    · subst h; exact htok
    · exact htoks t h
  have htrim := trimChars_built sps hs (tok :: toks) (by simp) hwfall
  obtain ⟨htne, htns⟩ := htok
  unfold parseLine
  rw [htrim]
  cases ts : toks with
  | nil =>
    have hbody : tokensToLine [tok] = tok := rfl
    rw [hbody, takeWhile_nonsp_self tok htns, dropWhile_nonsp_self tok htns,
      if_neg htne, if_neg htne]
    rfl
  | cons u us =>
    have hbody : tokensToLine (tok :: u :: us) = tok ++ ' ' :: tokensToLine (u :: us) := by
      obtain ⟨c, cs, hc⟩ := List.exists_cons_of_ne_nil htne
      subst hc
      rfl
    obtain ⟨htw, hdw⟩ := takeWhile_nonsp_app tok (tokensToLine (u :: us)) htns
    rw [hbody, htw, hdw, if_neg (by simp [htne]), if_neg htne]
    rfl

theorem parseLineCore_btbRec (st : PState) (tok restRaw : List Char)
    (h1 : tok ≠ kwCache) (h2 : tok ≠ kwEndCache) (h3 : tok ≠ kwHash) (h4 : tok ≠ kwBTB)
    (h5 : tok ≠ kwEndBTB) (h6 : 0 ≤ st.currentBtb) :
    parseLineCore st tok restRaw =
      match parseBtbRecord tok (tokenize restRaw) with
      | .upd f => .ok { st with btbs := alModifyD st.currentBtb emptyCkpt f st.btbs }
      | .bad => .error "malformed BTB record"
      | .unknown => .error "unexpected BTB token" := by
  unfold parseLineCore
  rw [if_neg h1, if_neg h2, if_neg h3, if_neg h4, if_neg h5, if_pos h6]

theorem parseBtbRecord_indirSize (n : Nat) (r2 : List (List Char)) :
    parseBtbRecord kwIndirectSize (natDigits 10 n :: r2) =
      .upd fun st =>
        { st with indirect_table_size := n,
                  indirect_targets := vecResize st.indirect_targets n 0 } := by
  unfold parseBtbRecord
  rw [if_neg (by decide), if_neg (by decide), if_pos rfl]
  simp [takeNatTok, parseNatTok_natDigits]

theorem parseBtbRecord_indirHist (n : Nat) (r2 : List (List Char)) :
    parseBtbRecord kwIndirectHistory (natDigits 10 n :: r2) =
      .upd fun st => { st with indirect_history := n } := by
  unfold parseBtbRecord
  rw [if_neg (by decide), if_neg (by decide), if_neg (by decide), if_pos rfl]
  simp [takeNatTok, parseNatTok_natDigits]

theorem parseBtbRecord_indirEntry (i a : Nat) (r2 : List (List Char)) :
    parseBtbRecord kwIndirectEntry (kwIndex :: natDigits 10 i :: kwTarget :: addrDigits a :: r2) =
      .upd fun st =>
        let tg :=
          if st.indirect_targets.length ≤ i then vecResize st.indirect_targets (i + 1) 0
          else st.indirect_targets
        { st with indirect_targets := tg.set i a } := by
  unfold parseBtbRecord
  rw [if_neg (by decide), if_neg (by decide), if_neg (by decide), if_neg (by decide), if_pos rfl]
  simp [expectTok, takeNatTok, takeAddrTok, parseNatTok_natDigits, parseAddrTok_addrDigits]

theorem parseBtbRecord_rse (a : Nat) (r2 : List (List Char)) :
    parseBtbRecord kwReturnStackEntry (addrDigits a :: r2) =
      .upd fun st => { st with return_stack := st.return_stack ++ [a] } := by
  unfold parseBtbRecord
  rw [if_neg (by decide), if_neg (by decide), if_neg (by decide), if_neg (by decide),
    if_neg (by decide), if_pos rfl]
  simp [takeAddrTok, parseAddrTok_addrDigits]

theorem parseBtbRecord_cstSize (n : Nat) (r2 : List (List Char)) :
    parseBtbRecord kwCSTSize (natDigits 10 n :: r2) =
      .upd fun st =>
        { st with call_size_tracker_size := n,
                  call_size_trackers := vecResize st.call_size_trackers n 0 } := by
  unfold parseBtbRecord
  rw [if_neg (by decide), if_neg (by decide), if_neg (by decide), if_neg (by decide),
    if_neg (by decide), if_neg (by decide), if_pos rfl]
  simp [takeNatTok, parseNatTok_natDigits]

/-! ### Association-list and loop lemmas -/

theorem alLookup_append_single {κ β : Type} [DecidableEq κ] (k : κ) (d : β)
    (l : List (κ × β)) (h : alLookup k l = none) : alLookup k (l ++ [(k, d)]) = some d := by
  induction l with
  | nil => simp [alLookup]
  | cons p t ih =>
    obtain ⟨k', v⟩ := p
    by_cases hk : k' = k
    · simp [alLookup, hk] at h
    · rw [List.cons_append]
      simp only [alLookup, hk, if_false] at h ⊢
      exact ih h

theorem alLookup_alModify {κ β : Type} [DecidableEq κ] (k : κ) (f : β → β) (l : List (κ × β)) :
    alLookup k (alModify k f l) = (alLookup k l).map f := by
  induction l with
  | nil => simp [alLookup, alModify]
  | cons p t ih =>
    obtain ⟨k', v⟩ := p
    by_cases hk : k' = k
    · simp [alLookup, alModify, hk]
    · rw [alModify]
      rw [if_neg hk]
      rw [alLookup, if_neg hk, alLookup, if_neg hk]
      exact ih

theorem alLookup_alModifyD {κ β : Type} [DecidableEq κ] (k : κ) (d : β) (f : β → β)
    (l : List (κ × β)) :
    alLookup k (alModifyD k d f l) = some (f ((alLookup k l).getD d)) := by
  unfold alModifyD
  cases h : alLookup k l with
  | none => rw [alLookup_append_single k (f d) l h]; rfl
  | some v => rw [alLookup_alModify, h]; rfl

theorem alLookup_alEnsure {κ β : Type} [DecidableEq κ] (k : κ) (d : β) (l : List (κ × β)) :
    alLookup k (alEnsure k d l) = some ((alLookup k l).getD d) := by
  unfold alEnsure
  cases h : alLookup k l with
  | none => rw [alLookup_append_single k d l h]; rfl
  | some v => rw [h]; rfl

theorem runLines_cons_ok (st st' : PState) (l : List Char) (ls : List (List Char))
    (h : parseLine st l = .ok st') : runLines st (l :: ls) = runLines st' ls := by
  simp [runLines, h]

theorem runLines_append_ok (xs : List (List Char)) :
    ∀ (st st' : PState) (ys : List (List Char)), runLines st xs = .ok st' →
      runLines st (xs ++ ys) = runLines st' ys := by
  induction xs with
  | nil =>
    intro st st' ys h
    simp only [runLines] at h
    cases h
    simp
  | cons l ls ih =>
    intro st st' ys h
    rw [runLines] at h
    cases hp : parseLine st l with
    | error e => rw [hp] at h; exact absurd h (by simp)
    | ok st1 =>
      rw [hp] at h
      simp only [List.cons_append]
      rw [runLines_cons_ok st st1 l (ls ++ ys) hp]
      exact ih st1 st' ys h

/-- One in-section record block: each line applies its checkpoint update to
the active cpu's entry, so the whole block folds the updates over it. -/
theorem runLines_map_upd {α : Type} (line : α → List Char) (f : α → BtbCkpt → BtbCkpt)
    (L : List α)
    (hline : ∀ (st : PState) (a : α), a ∈ L → 0 ≤ st.currentBtb →
      parseLine st (line a) = .ok (applyUpd st (f a))) :
    ∀ (st : PState) (b : BtbCkpt), 0 ≤ st.currentBtb →
      alLookup st.currentBtb st.btbs = some b →
      ∃ st' : PState, runLines st (L.map line) = .ok st' ∧
        st'.currentBtb = st.currentBtb ∧
        alLookup st.currentBtb st'.btbs = some (L.foldl (fun acc a => f a acc) b) := by
  induction L with
  | nil =>
    intro st b h6 hb
    exact ⟨st, rfl, rfl, hb⟩
  | cons a L ih =>
    intro st b h6 hb
    have hp := hline st a (by simp) h6
    have hlk : alLookup st.currentBtb (applyUpd st (f a)).btbs = some (f a b) := by
      show alLookup st.currentBtb (alModifyD st.currentBtb emptyCkpt (f a) st.btbs) = _
      rw [alLookup_alModifyD, hb]
      rfl
    obtain ⟨st', h1, h2, h3⟩ :=
      ih (fun st2 x hx h62 => hline st2 x (by simp [hx]) h62) (applyUpd st (f a)) (f a b) h6 hlk
    refine ⟨st', ?_, h2, ?_⟩
    · rw [List.map_cons, runLines_cons_ok st (applyUpd st (f a)) _ _ hp]
      exact h1
    · rw [List.foldl_cons]
      exact h3

/-! ### Fold-value lemmas -/

theorem vecResize_nil {α : Type} (n : Nat) (dflt : α) :
    vecResize ([] : List α) n dflt = List.replicate n dflt := by
  unfold vecResize
  cases n with
  | zero => simp
  | succ m => simp

theorem foldl_append_direct_entries (L : List DirectEntryC) :
    ∀ b : BtbCkpt,
      L.foldl (fun acc e => { acc with direct_entries := acc.direct_entries ++ [e] }) b =
        { b with direct_entries := b.direct_entries ++ L } := by
  induction L with
  | nil => intro b; simp
  | cons e L ih =>
    intro b
    rw [List.foldl_cons, ih]
    simp

theorem foldl_append_return_stack (L : List Nat) :
    ∀ b : BtbCkpt,
      L.foldl (fun acc a => { acc with return_stack := acc.return_stack ++ [a] }) b =
        { b with return_stack := b.return_stack ++ L } := by
  induction L with
  | nil => intro b; simp
  | cons e L ih =>
    intro b
    rw [List.foldl_cons, ih]
    simp

theorem take_set_succ {α : Type} (l : List α) :
    ∀ (k : Nat) (x : α), k < l.length → (l.set k x).take (k + 1) = l.take k ++ [x] := by
  induction l with
  | nil => intro k x h; simp at h
  | cons a t ih =>
    intro k x h
    cases k with
    | zero => simp
    | succ m =>
      simp only [List.set_cons_succ, List.take_succ_cons, List.take_succ_cons, List.cons_append]
      rw [ih m x (by simpa using h)]

theorem foldl_set_enum_targets (l : List Nat) :
    ∀ (k : Nat) (b : BtbCkpt), b.indirect_targets.length = k + l.length →
      (List.enumFrom k l).foldl
          (fun acc p =>
            let tg :=
              if acc.indirect_targets.length ≤ p.1 then vecResize acc.indirect_targets (p.1 + 1) 0
              else acc.indirect_targets
            { acc with indirect_targets := tg.set p.1 p.2 })
          b =
        { b with indirect_targets := b.indirect_targets.take k ++ l } := by
  induction l with
  | nil =>
    intro k b hlen
    simp only [List.enumFrom, List.foldl_nil, List.append_nil]
    have hk : k = b.indirect_targets.length := by simpa using hlen.symm
    subst hk
    rw [List.take_length]
  | cons x l ih =>
    intro k b hlen
    simp only [List.enumFrom, List.foldl_cons]
    have hnr : ¬(b.indirect_targets.length ≤ k) := by simp [hlen]
    rw [if_neg hnr]
    have hlen2 : (b.indirect_targets.set k x).length = (k + 1) + l.length := by
      simp [hlen]
      omega
    rw [ih (k + 1) { b with indirect_targets := b.indirect_targets.set k x } hlen2]
    simp only []
    rw [take_set_succ b.indirect_targets k x (by omega), List.append_assoc]
    rfl

theorem foldl_set_enum_trackers (l : List Int) :
    ∀ (k : Nat) (b : BtbCkpt), b.call_size_trackers.length = k + l.length →
      (List.enumFrom k l).foldl
          (fun acc p =>
            let tr :=
              if acc.call_size_trackers.length ≤ p.1 then
                vecResize acc.call_size_trackers (p.1 + 1) 0
              else acc.call_size_trackers
            { acc with call_size_trackers := tr.set p.1 p.2 })
          b =
        { b with call_size_trackers := b.call_size_trackers.take k ++ l } := by
  induction l with
  | nil =>
    intro k b hlen
    simp only [List.enumFrom, List.foldl_nil, List.append_nil]
    have hk : k = b.call_size_trackers.length := by simpa using hlen.symm
    subst hk
    rw [List.take_length]
  | cons x l ih =>
    intro k b hlen
    simp only [List.enumFrom, List.foldl_cons]
    have hnr : ¬(b.call_size_trackers.length ≤ k) := by simp [hlen]
    rw [if_neg hnr]
    have hlen2 : (b.call_size_trackers.set k x).length = (k + 1) + l.length := by
      simp [hlen]
      omega
    rw [ih (k + 1) { b with call_size_trackers := b.call_size_trackers.set k x } hlen2]
    simp only []
    rw [take_set_succ b.call_size_trackers k x (by omega), List.append_assoc]
    rfl

theorem applyUpd_lookup (st : PState) (f : BtbCkpt → BtbCkpt) (b : BtbCkpt)
    (hb : alLookup st.currentBtb st.btbs = some b) :
    alLookup st.currentBtb (applyUpd st f).btbs = some (f b) := by
  show alLookup st.currentBtb (alModifyD st.currentBtb emptyCkpt f st.btbs) = _
  rw [alLookup_alModifyD, hb]
  rfl

/-! ### Restore and contents lemmas -/

theorem to_branch_info_encode (t : BranchInfo) :
    to_branch_info (encodeBranchInfo t) = t := by
  cases t <;> decide

theorem encodeBranchInfo_lt (t : BranchInfo) : encodeBranchInfo t < 256 := by
  cases t <;> decide

theorem set_getD_self {α : Type} (l : List α) :
    ∀ (i : Nat) (d : α), i < l.length → l.set i (l.getD i d) = l := by
  induction l with
  | nil => intro i d h; simp at h
  | cons a t ih =>
    intro i d h
    cases i with
    | zero => simp [List.getD]
    | succ m =>
      simp only [List.set_cons_succ, List.cons.injEq, true_and]
      have : t.getD m d = (a :: t).getD (m + 1) d := by simp [List.getD]
      rw [← this]
      exact ih m d (by simpa using h)

theorem getD_set_self {α : Type} (l : List α) :
    ∀ (i : Nat) (x d : α), i < l.length → (l.set i x).getD i d = x := by
  induction l with
  | nil => intro i x d h; simp at h
  | cons a t ih =>
    intro i x d h
    cases i with
    | zero => simp [List.getD]
    | succ m =>
      simp only [List.set_cons_succ]
      have : ((a :: t.set m x)).getD (m + 1) d = (t.set m x).getD m d := by simp [List.getD]
      rw [this]
      exact ih m x d (by simpa using h)

/-- Restoring the lru entries produced by checkpoint_contents writes every
slot back to itself. -/
theorem lruRestore_contents_table (g : Geometry) (core : Core)
    (hlen : core.direct.table.length = g.sets * g.ways) :
    (lruRestore g core.direct ((checkpointContents g core).direct_entries.map toLruEntry)).table =
      core.direct.table := by
  unfold lruRestore
  simp only []
  unfold checkpointContents
  simp only [List.map_map]
  have key : ∀ idxs : List Nat, (∀ i ∈ idxs, i < core.direct.table.length) →
      (idxs.map fun i =>
          toLruEntry
            { set := ((i / g.ways : Nat) : Int), way := ((i % g.ways : Nat) : Int)
              last_used := (core.direct.table.getD i emptySlot).last_used
              ip_tag := (core.direct.table.getD i emptySlot).data.ip_tag
              target := (core.direct.table.getD i emptySlot).data.target
              branch_type := encodeBranchInfo (core.direct.table.getD i emptySlot).data.type }).foldl
        (fun t e =>
          if 0 ≤ e.set ∧ e.set < (g.sets : Int) ∧ 0 ≤ e.way ∧ e.way < (g.ways : Int) then
            t.set (e.set.toNat * g.ways + e.way.toNat) ⟨e.last_used, e.data⟩
          else t)
        core.direct.table = core.direct.table := by
    intro idxs
    induction idxs with
    | nil => intro _; rfl
    | cons i rest ih =>
      intro hmem
      have hi : i < core.direct.table.length := hmem i (by simp)
      have hin : (0 : Int) ≤ ((i / g.ways : Nat) : Int) ∧
          ((i / g.ways : Nat) : Int) < (g.sets : Int) ∧
          (0 : Int) ≤ ((i % g.ways : Nat) : Int) ∧ ((i % g.ways : Nat) : Int) < (g.ways : Int) := by
        refine ⟨Int.natCast_nonneg _, ?_, Int.natCast_nonneg _, ?_⟩
        · have : i / g.ways < g.sets := by
            have hw := g.ways_pos
            rw [Nat.div_lt_iff_lt_mul hw]
            omega
          exact_mod_cast this
        · have : i % g.ways < g.ways := Nat.mod_lt i g.ways_pos
          exact_mod_cast this
      simp only [List.map_cons, List.foldl_cons, toLruEntry]
      rw [if_pos hin]
      have hidx : (((i / g.ways : Nat) : Int)).toNat * g.ways +
          (((i % g.ways : Nat) : Int)).toNat = i := by
        simp only [Int.toNat_natCast]
        rw [Nat.mul_comm]
        exact Nat.div_add_mod i g.ways
      rw [hidx, to_branch_info_encode]
      have heta : (⟨(core.direct.table.getD i emptySlot).last_used,
          ⟨(core.direct.table.getD i emptySlot).data.ip_tag,
           (core.direct.table.getD i emptySlot).data.target,
           (core.direct.table.getD i emptySlot).data.type⟩⟩ : LruSlot) =
          core.direct.table.getD i emptySlot := rfl
      rw [heta, set_getD_self core.direct.table i emptySlot hi]
      exact ih (fun j hj => hmem j (by simp [hj]))
  exact key (List.range core.direct.table.length) (by intro i hi; simpa using hi)

/-- Refilling the cleared return stack with at most RAS_MAX entries keeps
them all in order. -/
theorem foldl_push_id (g : Geometry) (l : List Nat) :
    ∀ acc : List Nat, acc.length + l.length ≤ g.rasMax →
      l.foldl
        (fun acc a =>
          let acc' := acc ++ [a]
          if g.rasMax < acc'.length then acc'.tail else acc')
        acc = acc ++ l := by
  induction l with
  | nil => intro acc _; simp
  | cons a l ih =>
    intro acc hle
    simp only [List.length_cons] at hle
    simp only [List.foldl_cons]
    rw [show (let acc' := acc ++ [a]
        if g.rasMax < acc'.length then acc'.tail else acc') = acc ++ [a] from by
      simp only []
      rw [if_neg (by simp only [List.length_append, List.length_cons, List.length_nil]; omega)]]
    rw [ih (acc ++ [a]) (by simp only [List.length_append, List.length_cons, List.length_nil]; omega)]
    simp

/-- checkpoint_contents depends only on these five components. -/
theorem contents_congr (g : Geometry) (c1 c2 : Core)
    (ht : c1.direct.table = c2.direct.table)
    (hp : c1.indirect.predictor = c2.indirect.predictor)
    (hh : c1.indirect.history = c2.indirect.history)
    (hs : c1.ras.stack = c2.ras.stack)
    (htr : c1.ras.trackers = c2.ras.trackers) :
    checkpointContents g c1 = checkpointContents g c2 := by
  unfold checkpointContents
  rw [ht, hp, hh, hs, htr]

/-- restore(checkpoint_contents()) succeeds and reproduces an equal
checkpoint on every core satisfying the structural invariant. -/
theorem restore_contents (g : Geometry) (core : Core) (h : Inv g core) :
    (restoreCheckpoint g (checkpointContents g core) core).2 = none ∧
      checkpointContents g ((restoreCheckpoint g (checkpointContents g core) core).1) =
        checkpointContents g core := by
  obtain ⟨h1, h2, h3, h4, h5⟩ := h
  have hts : (checkpointContents g core).direct_sets = (g.sets : Int) := rfl
  have hws : (checkpointContents g core).direct_ways = (g.ways : Int) := rfl
  have hpred : (checkpointContents g core).indirect_targets = core.indirect.predictor := rfl
  have htrk : (checkpointContents g core).call_size_trackers = core.ras.trackers := rfl
  have hpne : core.indirect.predictor ≠ [] := by
    intro hemp
    rw [hemp] at h2
    have : 0 < g.indirSize := Nat.pos_pow_of_pos _ (by omega)
    simp at h2
    omega
  have htne : core.ras.trackers ≠ [] := by
    intro hemp
    rw [hemp] at h5
    have := g.trackerN_pos
    simp at h5
    omega
  unfold restoreCheckpoint
  rw [if_neg (by simp [hts]), if_neg (by simp [hws]),
    if_neg (by simp [hpred, h2]), if_neg (by simp [htrk, h5])]
  refine ⟨rfl, ?_⟩
  apply contents_congr
  · exact lruRestore_contents_table g core h1
  · show (if (checkpointContents g core).indirect_targets.isEmpty then
        List.replicate g.indirSize 0 else (checkpointContents g core).indirect_targets) =
      core.indirect.predictor
    rw [hpred, if_neg (by simpa using hpne)]
  · exact Nat.mod_eq_of_lt h3
  · show (checkpointContents g core).return_stack.foldl
        (fun acc a =>
          let acc' := acc ++ [a]
          if g.rasMax < acc'.length then acc'.tail else acc')
        [] = core.ras.stack
    have := foldl_push_id g core.ras.stack [] (by simpa using h4)
    simpa using this
  · show (if (checkpointContents g core).call_size_trackers.isEmpty then
        List.replicate g.trackerN 4 else (checkpointContents g core).call_size_trackers) =
      core.ras.trackers
    rw [htrk, if_neg (by simpa using htne)]

/-- C1: For every IP, predict(ip) follows the facade dispatch exactly: if
the direct predictor reports no hit, the result is (0, false); if the hit
entry's stored kind is RETURN the result is ras.prediction(); if it is
INDIRECT the result is indirect.prediction(ip); otherwise the result is
(entry.target, entry.kind != CONDITIONAL). -/
theorem C1_facade_dispatch (g : Geometry) (core : Core) (ip : Nat) (e : DirectData)
    (d' : DirectPred) :
    (checkHit g core.direct ip = (none, d') → (btbPrediction g core ip).1 = (0, false)) ∧
    (checkHit g core.direct ip = (some e, d') →
      (e.type = BranchInfo.RETURN →
        (btbPrediction g core ip).1 = (rasPrediction core.ras).1) ∧
      (e.type = BranchInfo.INDIRECT →
        (btbPrediction g core ip).1 = indirectPrediction g core.indirect ip) ∧
      (e.type ≠ BranchInfo.RETURN → e.type ≠ BranchInfo.INDIRECT →
        (btbPrediction g core ip).1 = (e.target, e.type != BranchInfo.CONDITIONAL))) := by
  constructor
  · intro h
    simp [btbPrediction, h]
  · intro h
    refine ⟨?_, ?_, ?_⟩
    · intro ht
      simp [btbPrediction, h, ht]
    · intro ht
      simp [btbPrediction, h, ht]
    · intro hr hi
      simp [btbPrediction, h, hr, hi]

/-- Witness for C1 at a concrete hit of kind RETURN. -/
theorem C1_witness :
    (btbPrediction g0 coreR 1).1 = (rasPrediction coreR.ras).1 :=
  ((C1_facade_dispatch g0 coreR 1 e0 d0).2 (by decide)).1 (by decide)

/-- C2: update(ip, target, taken, kind_code) pushes the RAS exactly on
calls, updates the indirect target exactly on indirect kinds, shifts the
history exactly on CONDITIONAL, calibrates the call size exactly on
RETURN, and always updates the direct predictor with the internal mapping
of the code. -/
theorem C2_update_dispatch (g : Geometry) (core : Core) (ip target : Nat) (taken : Bool)
    (code : Nat) :
    (updateBtb g core ip target taken code).ras =
      (if code = BRANCH_DIRECT_CALL ∨ code = BRANCH_INDIRECT_CALL then rasPush g core.ras ip
       else if code = BRANCH_RETURN then rasCalibrate g core.ras target
       else core.ras) ∧
    (updateBtb g core ip target taken code).indirect =
      (if code = BRANCH_INDIRECT ∨ code = BRANCH_INDIRECT_CALL then
        indirectUpdateTarget g core.indirect ip target
       else if code = BRANCH_CONDITIONAL then indirectUpdateDirection g core.indirect taken
       else core.indirect) ∧
    (updateBtb g core ip target taken code).direct =
      directUpdateInfo g core.direct ip target (internalKind code) ∧
    internalKind BRANCH_DIRECT_JUMP = BranchInfo.ALWAYS_TAKEN ∧
    internalKind BRANCH_DIRECT_CALL = BranchInfo.ALWAYS_TAKEN ∧
    internalKind BRANCH_OTHER = BranchInfo.ALWAYS_TAKEN ∧
    internalKind BRANCH_INDIRECT = BranchInfo.INDIRECT ∧
    internalKind BRANCH_INDIRECT_CALL = BranchInfo.INDIRECT ∧
    internalKind BRANCH_RETURN = BranchInfo.RETURN ∧
    internalKind BRANCH_CONDITIONAL = BranchInfo.CONDITIONAL :=
  ⟨updateBtb_ras_eq g core ip target taken code,
   updateBtb_indirect_eq g core ip target taken code,
   updateBtb_direct_eq g core ip target taken code,
   by decide, by decide, by decide, by decide, by decide, by decide, by decide⟩

/-- C4: restore_checkpoint raises a geometry-mismatch error exactly when a
non-zero direct dimension or a non-empty vector disagrees with the live
geometry; zero or empty checkpoint dimensions are accepted.  RestoreErr
has only geometry-mismatch constructors, and no branch of the restore
truncates a mismatched vector. -/
theorem C4_geometry_mismatch_iff (g : Geometry) (st : BtbCkpt) (core : Core) :
    (restoreCheckpoint g st core).2.isSome = true ↔
      (st.direct_sets ≠ 0 ∧ st.direct_sets ≠ (g.sets : Int)) ∨
      (st.direct_ways ≠ 0 ∧ st.direct_ways ≠ (g.ways : Int)) ∨
      (st.indirect_targets ≠ [] ∧ st.indirect_targets.length ≠ g.indirSize) ∨
      (st.call_size_trackers ≠ [] ∧ st.call_size_trackers.length ≠ g.trackerN) := by
  unfold restoreCheckpoint
  split_ifs with a b c d <;> simp_all <;> tauto

/-- C6: restoring checkpoint_contents() and taking checkpoint_contents()
again yields an equal state, for every reachable BTB state. -/
theorem C6_restore_idempotent (g : Geometry) (core : Core) (h : Reachable g core) :
    (restoreCheckpoint g (checkpointContents g core) core).2 = none ∧
      checkpointContents g ((restoreCheckpoint g (checkpointContents g core) core).1) =
        checkpointContents g core :=
  restore_contents g core (reachable_inv g core h)

/-- Witness for C6 on the initial core of the minimal geometry. -/
theorem C6_witness :
    (restoreCheckpoint g0 (checkpointContents g0 (initCore g0)) (initCore g0)).2 = none ∧
      checkpointContents g0
          ((restoreCheckpoint g0 (checkpointContents g0 (initCore g0)) (initCore g0)).1) =
        checkpointContents g0 (initCore g0) :=
  C6_restore_idempotent g0 (initCore g0) Reachable.init

/-- C8 as stated is false: a checkpoint with a bad tracker vector AND a bad
direct set count throws at the set-count check, before anything is
overwritten, so the direct table does not hold the checkpoint's data when
the error is raised. -/
theorem C8_counterexample :
    (restoreCheckpoint g0 st8bad (initCore g0)).2 = some RestoreErr.directSets ∧
      (restoreCheckpoint g0 st8bad (initCore g0)).1.direct = (initCore g0).direct ∧
      lruRestore g0 (initCore g0).direct (st8bad.direct_entries.map toLruEntry) ≠
        (initCore g0).direct := by
  decide

/-- C8 (amended): for every checkpoint that passes the direct and indirect
geometry checks and whose call_size_trackers vector is non-empty with the
wrong size, restore throws the tracker mismatch, and at that point the
direct table, the indirect table, the conditional history and the return
stack have already been overwritten with the checkpoint's data while the
live trackers are untouched. -/
theorem C8_nonatomic_restore (g : Geometry) (st : BtbCkpt) (core : Core)
    (hs : st.direct_sets = 0 ∨ st.direct_sets = (g.sets : Int))
    (hw : st.direct_ways = 0 ∨ st.direct_ways = (g.ways : Int))
    (hi : st.indirect_targets = [] ∨ st.indirect_targets.length = g.indirSize)
    (ht : st.call_size_trackers ≠ []) (htl : st.call_size_trackers.length ≠ g.trackerN) :
    (restoreCheckpoint g st core).2 = some RestoreErr.callSize ∧
      (restoreCheckpoint g st core).1.direct =
        lruRestore g core.direct (st.direct_entries.map toLruEntry) ∧
      (restoreCheckpoint g st core).1.indirect.predictor =
        (if st.indirect_targets.isEmpty then List.replicate g.indirSize 0
         else st.indirect_targets) ∧
      (restoreCheckpoint g st core).1.indirect.history = st.indirect_history % 2 ^ g.histBits ∧
      (restoreCheckpoint g st core).1.ras.stack =
        st.return_stack.foldl
          (fun acc a =>
            let acc' := acc ++ [a]
            if g.rasMax < acc'.length then acc'.tail else acc')
          [] ∧
      (restoreCheckpoint g st core).1.ras.trackers = core.ras.trackers := by
  unfold restoreCheckpoint
  rw [if_neg (by tauto), if_neg (by tauto), if_neg (by tauto), if_pos ⟨ht, htl⟩]
  exact ⟨rfl, rfl, rfl, rfl, rfl, rfl⟩

/-- Witness for the amended C8 at a concrete tracker-size mismatch. -/
theorem C8_witness :
    (restoreCheckpoint g0 st8w (initCore g0)).2 = some RestoreErr.callSize ∧
      (restoreCheckpoint g0 st8w (initCore g0)).1.direct =
        lruRestore g0 (initCore g0).direct (st8w.direct_entries.map toLruEntry) ∧
      (restoreCheckpoint g0 st8w (initCore g0)).1.indirect.predictor =
        (if st8w.indirect_targets.isEmpty then List.replicate g0.indirSize 0
         else st8w.indirect_targets) ∧
      (restoreCheckpoint g0 st8w (initCore g0)).1.indirect.history =
        st8w.indirect_history % 2 ^ g0.histBits ∧
      (restoreCheckpoint g0 st8w (initCore g0)).1.ras.stack =
        st8w.return_stack.foldl
          (fun acc a =>
            let acc' := acc ++ [a]
            if g0.rasMax < acc'.length then acc'.tail else acc')
          [] ∧
      (restoreCheckpoint g0 st8w (initCore g0)).1.ras.trackers = (initCore g0).ras.trackers :=
  C8_nonatomic_restore g0 st8w (initCore g0) (Or.inl (by decide)) (Or.inl (by decide))
    (Or.inl (by decide)) (by decide) (by decide)

/-- C9: when restoring a direct entry, every branch_type byte that is not
the encoding of INDIRECT, RETURN or CONDITIONAL is stored as
ALWAYS_TAKEN. -/
theorem C9_unknown_branch_type (g : Geometry) (core : Core) (hInv : Inv g core)
    (s w lu ip tg bt : Nat) (hs : s < g.sets) (hw : w < g.ways)
    (h00 : bt ≠ 0) (h01 : bt ≠ 1) (h02 : bt ≠ 2) :
    (((restoreCheckpoint g ⟨0, 0, [⟨(s : Int), (w : Int), lu, ip, tg, bt⟩], 0, [], 0, [], 0, []⟩
          core).1).direct.table.getD (s * g.ways + w) emptySlot).data.type =
      BranchInfo.ALWAYS_TAKEN := by
  obtain ⟨h1, _, _, _, _⟩ := hInv
  have hidx : s * g.ways + w < core.direct.table.length := by
    rw [h1]
    have hlt : s * g.ways + w < (s + 1) * g.ways := by
      rw [Nat.succ_mul]
      omega
    have hle : (s + 1) * g.ways ≤ g.sets * g.ways := Nat.mul_le_mul_right _ hs
    omega
  unfold restoreCheckpoint
  rw [if_neg (by simp), if_neg (by simp), if_neg (by simp), if_neg (by simp)]
  show ((lruRestore g core.direct
      ([⟨(s : Int), (w : Int), lu, ip, tg, bt⟩].map toLruEntry)).table.getD
        (s * g.ways + w) emptySlot).data.type = BranchInfo.ALWAYS_TAKEN
  unfold lruRestore
  simp only [List.map_cons, List.map_nil, toLruEntry, List.foldl_cons, List.foldl_nil]
  rw [if_pos ⟨Int.natCast_nonneg _, by exact_mod_cast hs, Int.natCast_nonneg _,
    by exact_mod_cast hw⟩]
  simp only [Int.toNat_natCast]
  rw [getD_set_self core.direct.table (s * g.ways + w) _ emptySlot hidx]
  show to_branch_info bt = BranchInfo.ALWAYS_TAKEN
  unfold to_branch_info
  simp only [encodeBranchInfo]
  rw [if_neg h00, if_neg h01, if_neg h02]

/-- Witness for C9 at branch_type byte 77. -/
theorem C9_witness :
    (((restoreCheckpoint g0 ⟨0, 0, [⟨0, 0, 3, 7, 9, 77⟩], 0, [], 0, [], 0, []⟩
          (initCore g0)).1).direct.table.getD (0 * g0.ways + 0) emptySlot).data.type =
      BranchInfo.ALWAYS_TAKEN :=
  C9_unknown_branch_type g0 (initCore g0) (initCore_inv g0) 0 0 3 7 9 77
    (by decide) (by decide) (by decide) (by decide) (by decide)

theorem vecResize_length {α : Type} (l : List α) (n : Nat) (d : α) :
    (vecResize l n d).length = n := by
  unfold vecResize
  split
  · rename_i h
    simp [Nat.min_eq_left h]
  · rename_i h
    simp
    omega

theorem dropWhile_app_left (l r : List Char) (h : l.dropWhile isSp ≠ []) :
    (l ++ r).dropWhile isSp = l.dropWhile isSp ++ r := by
  induction l with
  | nil => simp at h
  | cons c t ih =>
    by_cases hc : isSp c = true
    · simp only [List.cons_append, List.dropWhile_cons, hc, if_true] at h ⊢
      exact ih h
    · simp [List.cons_append, List.dropWhile_cons, hc] at h ⊢

theorem trimChars_pad (line sps1 sps2 : List Char)
    (hs1 : ∀ c ∈ sps1, isSp c = true) (hs2 : ∀ c ∈ sps2, isSp c = true) :
    trimChars (sps1 ++ line ++ sps2) = trimChars line := by
  unfold trimChars
  rw [List.append_assoc, dropWhile_sp_app sps1 _ hs1]
  by_cases hl : line.dropWhile isSp = []
  · have hall : ∀ c ∈ line, isSp c = true := by
      rw [List.dropWhile_eq_nil_iff] at hl
      exact hl
    have h2 : (line ++ sps2).dropWhile isSp = [] := by
      rw [dropWhile_sp_app line sps2 hall]
      exact List.dropWhile_eq_nil_iff.mpr hs2
    rw [h2, hl]
  · rw [dropWhile_app_left line sps2 hl, List.reverse_append,
      dropWhile_sp_app sps2.reverse _ (by intro c hc; exact hs2 c (by simpa using hc))]

/-- C7 as stated is false: a line whose '#' is immediately followed by
another character is not skipped; outside a section it is the fatal
unexpected-token case. -/
theorem C7_counterexample :
    runLines initPState [("#x".toList)] = .error "unexpected token" := by rfl

/-- C7 (amended): lines are trimmed (surrounding whitespace never changes
the outcome), blank lines are skipped without error or state change, and
a line whose first whitespace-delimited token is exactly "#" is skipped;
a '#' fused to a following character is not a comment. -/
theorem C7_trim_and_skip (st : PState) (line sps1 sps2 : List Char)
    (hs1 : ∀ c ∈ sps1, isSp c = true) (hs2 : ∀ c ∈ sps2, isSp c = true) :
    parseLine st (sps1 ++ line ++ sps2) = parseLine st line ∧
      (trimChars line = [] → parseLine st line = .ok st) ∧
      ((trimChars line).takeWhile (fun c => !isSp c) = kwHash → parseLine st line = .ok st) := by
  refine ⟨?_, ?_, ?_⟩
  · unfold parseLine
    rw [trimChars_pad line sps1 sps2 hs1 hs2]
  · intro h
    unfold parseLine
    rw [if_pos h]
  · intro h
    by_cases hemp : trimChars line = []
    · unfold parseLine
      rw [if_pos hemp]
    · unfold parseLine
      rw [if_neg hemp, h, if_neg (by decide : ¬(kwHash = ([] : List Char)))]
      unfold parseLineCore
      rw [if_neg (by decide), if_neg (by decide), if_pos rfl]

/-- Witness for the amended C7: padding is invisible and a lone-# line is
skipped. -/
theorem C7_witness :
    parseLine initPState (" ".toList ++ "# x".toList ++ " ".toList) =
        parseLine initPState ("# x".toList) ∧
      parseLine initPState ("# x".toList) = .ok initPState :=
  ⟨(C7_trim_and_skip initPState ("# x".toList) (" ".toList) (" ".toList)
      (by decide) (by decide)).1,
   (C7_trim_and_skip initPState ("# x".toList) (" ".toList) (" ".toList)
      (by decide) (by decide)).2.2 (by decide)⟩

/-- C5 as stated is false: a line with an unrecognised leading token
outside any BTB: section (and outside any cache context) is not skipped;
load_cache_checkpoint throws its unexpected-token error. -/
theorem C5_counterexample :
    runLines initPState [("Bogus stuff".toList)] = .error "unexpected token" := by rfl

/-- C5 (amended): a line whose leading token is not one of the recognised
keywords is fatal in every parser state, both inside and outside a BTB:
section. -/
theorem C5_unknown_token_fatal (st : PState) (line tok : List Char)
    (hne : trimChars line ≠ [])
    (htok : (trimChars line).takeWhile (fun c => !isSp c) = tok)
    (h0 : tok ≠ [])
    (k1 : tok ≠ kwCache) (k2 : tok ≠ kwEndCache) (k3 : tok ≠ kwHash) (k4 : tok ≠ kwBTB)
    (k5 : tok ≠ kwEndBTB) (k6 : tok ≠ kwSetColon) (k7 : tok ≠ kwDirectGeometry)
    (k8 : tok ≠ kwDirectEntry) (k9 : tok ≠ kwIndirectSize) (k10 : tok ≠ kwIndirectHistory)
    (k11 : tok ≠ kwIndirectEntry) (k12 : tok ≠ kwReturnStackEntry) (k13 : tok ≠ kwCSTSize)
    (k14 : tok ≠ kwCST) :
    ∃ msg, parseLine st line = .error msg := by
  have hrec : parseBtbRecord tok
      (tokenize ((trimChars line).dropWhile fun c => !isSp c)) = .unknown := by
    unfold parseBtbRecord
    rw [if_neg k7, if_neg k8, if_neg k9, if_neg k10, if_neg k11, if_neg k12, if_neg k13,
      if_neg k14]
  by_cases hbt : 0 ≤ st.currentBtb
  · refine ⟨"unexpected BTB token", ?_⟩
    unfold parseLine
    rw [if_neg hne, htok, if_neg h0]
    unfold parseLineCore
    rw [if_neg k1, if_neg k2, if_neg k3, if_neg k4, if_neg k5, if_pos hbt, hrec]
  · refine ⟨"unexpected token", ?_⟩
    unfold parseLine
    rw [if_neg hne, htok, if_neg h0]
    unfold parseLineCore
    rw [if_neg k1, if_neg k2, if_neg k3, if_neg k4, if_neg k5, if_neg hbt, if_neg k6]

/-- Witness for the amended C5 at a concrete unknown token. -/
theorem C5_witness : ∃ msg, parseLine initPState ("Bogus stuff".toList) = .error msg :=
  C5_unknown_token_fatal initPState ("Bogus stuff".toList) ("Bogus".toList)
    (by decide) (by decide) (by decide) (by decide) (by decide) (by decide) (by decide)
    (by decide) (by decide) (by decide) (by decide) (by decide) (by decide) (by decide)
    (by decide) (by decide) (by decide)

theorem natDigits_head_digit (b n : Nat) (hb : b ≤ 16) (hb2 : 2 ≤ b) :
    ∀ c ∈ natDigits b n, ∃ d, d < 16 ∧ c = digCh d :=
  fun c hc => natDigitsAux_chars b hb hb2 n n c hc

theorem parseIntTok_intDigits (i : Int) : parseIntTok (intDigits i) = some i := by
  unfold intDigits
  by_cases h : i < 0
  · rw [if_pos h]
    show parseIntTok ('-' :: natDigits 10 (-i).toNat) = some i
    rw [parseIntTok_cons, if_pos rfl, parseBase_natDigits_ten]
    simp
    omega
  · rw [if_neg h]
    have hne := natDigits_ne_nil 10 i.toNat
    cases hd : natDigits 10 i.toNat with
    | nil => exact absurd hd hne
    | cons c rest =>
      have hc : ¬(c = '-') := by
        obtain ⟨d, hd16, hcc⟩ := natDigits_head_digit 10 i.toNat (by omega) (by omega) c
          (by rw [hd]; simp)
        subst hcc
        interval_cases d <;> decide
      rw [parseIntTok_cons, if_neg hc, ← hd, parseBase_natDigits_ten]
      simp
      omega

theorem parse_endBtb_line (st : PState) (h6 : 0 ≤ st.currentBtb) :
    parseLine st kwEndBTB = .ok { st with currentBtb := -1 } := by
  have h0 : (kwEndBTB : List Char) = [] ++ tokensToLine [kwEndBTB] := rfl
  rw [h0, parseLine_built st [] (by simp) kwEndBTB [] (by decide) (by simp)]
  unfold parseLineCore
  rw [if_neg (by decide), if_neg (by decide), if_neg (by decide), if_neg (by decide), if_pos rfl,
    if_neg (by omega)]

theorem parse_indirSize_line (st : PState) (h6 : 0 ≤ st.currentBtb) (n : Nat) :
    parseLine st (indent2 ++ tokensToLine [kwIndirectSize, natDigits 10 n]) =
      .ok (applyUpd st fun b =>
        { b with indirect_table_size := n,
                 indirect_targets := vecResize b.indirect_targets n 0 }) := by
  rw [parseLine_built st indent2 (by decide) _ _ (by decide) ?wf]
  case wf =>
    intro t ht
    simp only [List.mem_cons, List.not_mem_nil, or_false] at ht
    rcases ht with rfl
    exact wfTok_natDigits n
  rw [parseLineCore_btbRec st _ _ (by decide) (by decide) (by decide) (by decide) (by decide) h6,
    tokenize_lineRest _ ?wf2]
  case wf2 =>
    intro t ht
    simp only [List.mem_cons, List.not_mem_nil, or_false] at ht
    rcases ht with rfl
    exact wfTok_natDigits n
  rw [parseBtbRecord_indirSize n []]
  rfl

theorem parse_indirHist_line (st : PState) (h6 : 0 ≤ st.currentBtb) (n : Nat) :
    parseLine st (indent2 ++ tokensToLine [kwIndirectHistory, natDigits 10 n]) =
      .ok (applyUpd st fun b => { b with indirect_history := n }) := by
  rw [parseLine_built st indent2 (by decide) _ _ (by decide) ?wf]
  case wf =>
    intro t ht
    simp only [List.mem_cons, List.not_mem_nil, or_false] at ht
    rcases ht with rfl
    exact wfTok_natDigits n
  rw [parseLineCore_btbRec st _ _ (by decide) (by decide) (by decide) (by decide) (by decide) h6,
    tokenize_lineRest _ ?wf2]
  case wf2 =>
    intro t ht
    simp only [List.mem_cons, List.not_mem_nil, or_false] at ht
    rcases ht with rfl
    exact wfTok_natDigits n
  rw [parseBtbRecord_indirHist n []]
  rfl

theorem parse_cstSize_line (st : PState) (h6 : 0 ≤ st.currentBtb) (n : Nat) :
    parseLine st (indent2 ++ tokensToLine [kwCSTSize, natDigits 10 n]) =
      .ok (applyUpd st fun b =>
        { b with call_size_tracker_size := n,
                 call_size_trackers := vecResize b.call_size_trackers n 0 }) := by
  rw [parseLine_built st indent2 (by decide) _ _ (by decide) ?wf]
  case wf =>
    intro t ht
    simp only [List.mem_cons, List.not_mem_nil, or_false] at ht
    rcases ht with rfl
    exact wfTok_natDigits n
  rw [parseLineCore_btbRec st _ _ (by decide) (by decide) (by decide) (by decide) (by decide) h6,
    tokenize_lineRest _ ?wf2]
  case wf2 =>
    intro t ht
    simp only [List.mem_cons, List.not_mem_nil, or_false] at ht
    rcases ht with rfl
    exact wfTok_natDigits n
  rw [parseBtbRecord_cstSize n []]
  rfl

theorem parse_indirEntry_line (st : PState) (h6 : 0 ≤ st.currentBtb) (i a : Nat) :
    parseLine st
        (indent2 ++ tokensToLine [kwIndirectEntry, kwIndex, natDigits 10 i, kwTarget, addrDigits a]) =
      .ok (applyUpd st fun b =>
        let tg :=
          if b.indirect_targets.length ≤ i then vecResize b.indirect_targets (i + 1) 0
          else b.indirect_targets
        { b with indirect_targets := tg.set i a }) := by
  have hwf : ∀ t ∈ [kwIndex, natDigits 10 i, kwTarget, addrDigits a], WfTok t := by
    intro t ht
    simp only [List.mem_cons, List.not_mem_nil, or_false] at ht
    rcases ht with rfl | rfl | rfl | rfl
    · decide
    · exact wfTok_natDigits i
    · decide
    · exact wfTok_addrDigits a
  rw [parseLine_built st indent2 (by decide) _ _ (by decide) hwf]
  rw [parseLineCore_btbRec st _ _ (by decide) (by decide) (by decide) (by decide) (by decide) h6,
    tokenize_lineRest _ hwf, parseBtbRecord_indirEntry i a []]
  rfl

theorem parse_rse_line (st : PState) (h6 : 0 ≤ st.currentBtb) (a : Nat) :
    parseLine st (indent2 ++ tokensToLine [kwReturnStackEntry, addrDigits a]) =
      .ok (applyUpd st fun b => { b with return_stack := b.return_stack ++ [a] }) := by
  have hwf : ∀ t ∈ [addrDigits a], WfTok t := by
    intro t ht
    simp only [List.mem_cons, List.not_mem_nil, or_false] at ht
    rcases ht with rfl
    exact wfTok_addrDigits a
  rw [parseLine_built st indent2 (by decide) _ _ (by decide) hwf]
  rw [parseLineCore_btbRec st _ _ (by decide) (by decide) (by decide) (by decide) (by decide) h6,
    tokenize_lineRest _ hwf, parseBtbRecord_rse a []]
  rfl

theorem midPairs_fold (s : BtbCkpt)
    (h1 : s.indirect_targets.length = s.indirect_table_size)
    (h2 : s.call_size_trackers.length = s.call_size_tracker_size) :
    (midPairs s).foldl (fun acc a => a.2 acc) emptyCkpt = s := by
  unfold midPairs
  rw [List.foldl_append, List.foldl_append, List.foldl_append, List.foldl_append]
  rw [foldl_map_snd, foldl_map_snd, foldl_map_snd, foldl_map_snd]
  simp only [List.foldl_cons, List.foldl_nil,
    show emptyCkpt.direct_entries = [] from rfl,
    show emptyCkpt.indirect_targets = [] from rfl,
    show emptyCkpt.return_stack = [] from rfl,
    show emptyCkpt.call_size_trackers = [] from rfl]
  rw [vecResize_nil, vecResize_nil]
  rw [foldl_append_direct_entries]
  rw [show (List.enum s.indirect_targets) = List.enumFrom 0 s.indirect_targets from rfl,
    foldl_set_enum_targets s.indirect_targets 0 _ (by simp [h1])]
  rw [foldl_append_return_stack]
  rw [show (List.enum s.call_size_trackers) = List.enumFrom 0 s.call_size_trackers from rfl,
    foldl_set_enum_trackers s.call_size_trackers 0 _ (by simp [h2])]
  simp only [List.take_zero, List.nil_append]

/-! ### Parsing the emitter's own lines -/

theorem parseIntTok_natDigits (n : Nat) : parseIntTok (natDigits 10 n) = some (n : Int) := by
  have hne := natDigits_ne_nil 10 n
  cases hd : natDigits 10 n with
  | nil => exact absurd hd hne
  | cons c rest =>
    have hc : ¬(c = '-') := by
      obtain ⟨d, hd16, hcc⟩ := natDigits_head_digit 10 n (by omega) (by omega) c (by rw [hd]; simp)
      subst hcc
      interval_cases d <;> decide
    rw [parseIntTok_cons, if_neg hc, ← hd, parseBase_natDigits_ten]
    simp

theorem parseBtbRecord_geom (s w : Int) (r2 : List (List Char)) :
    parseBtbRecord kwDirectGeometry (kwSetsPlain :: intDigits s :: kwWaysPlain :: intDigits w :: r2) =
      .upd fun st => { st with direct_sets := s, direct_ways := w } := by
  unfold parseBtbRecord
  rw [if_pos rfl]
  simp [expectTok, takeIntTok, parseIntTok_intDigits]

theorem parseBtbRecord_directEntry (s w : Int) (lu ip tg bt : Nat) (r2 : List (List Char)) :
    parseBtbRecord kwDirectEntry
        (kwSetPlain :: intDigits s :: kwWayPlain :: intDigits w :: kwLastUsed ::
          natDigits 10 lu :: kwIP :: addrDigits ip :: kwTarget :: addrDigits tg ::
          kwType :: natDigits 10 bt :: r2) =
      .upd fun st =>
        { st with direct_entries :=
            st.direct_entries ++ [⟨s, w, lu, ip, tg, (((bt : Int)).emod 256).toNat⟩] } := by
  unfold parseBtbRecord
  rw [if_neg (by decide), if_pos rfl]
  simp [expectTok, takeIntTok, takeNatTok, takeAddrTok, parseIntTok_intDigits,
    parseIntTok_natDigits, parseNatTok_natDigits, parseAddrTok_addrDigits]

theorem parseBtbRecord_cst (i : Nat) (v : Int) (r2 : List (List Char)) :
    parseBtbRecord kwCST (kwIndex :: natDigits 10 i :: kwSizePlain :: intDigits v :: r2) =
      .upd fun st =>
        let tr :=
          if st.call_size_trackers.length ≤ i then vecResize st.call_size_trackers (i + 1) 0
          else st.call_size_trackers
        { st with call_size_trackers := tr.set i v } := by
  unfold parseBtbRecord
  rw [if_neg (by decide), if_neg (by decide), if_neg (by decide), if_neg (by decide),
    if_neg (by decide), if_neg (by decide), if_neg (by decide), if_pos rfl]
  simp [expectTok, takeNatTok, takeIntTok, parseNatTok_natDigits, parseIntTok_intDigits]

theorem parse_btbHeader_line (st : PState) (cpu : Nat) :
    parseLine st (tokensToLine [kwBTB, kwCPU, natDigits 10 cpu]) =
      .ok { st with currentBtb := (cpu : Int), btbs := alEnsure (cpu : Int) emptyCkpt st.btbs } := by
  have h0 : tokensToLine [kwBTB, kwCPU, natDigits 10 cpu] =
      [] ++ tokensToLine [kwBTB, kwCPU, natDigits 10 cpu] := rfl
  rw [h0, parseLine_built st [] (by simp) kwBTB [kwCPU, natDigits 10 cpu] (by decide) ?wf]
  case wf =>
    intro t ht
    simp only [List.mem_cons, List.not_mem_nil, or_false] at ht
    rcases ht with rfl | rfl
    · decide
    · exact wfTok_natDigits cpu
  unfold parseLineCore
  rw [if_neg (by decide), if_neg (by decide), if_neg (by decide), if_pos rfl,
    tokenize_lineRest _ ?wf2]
  case wf2 =>
    intro t ht
    simp only [List.mem_cons, List.not_mem_nil, or_false] at ht
    rcases ht with rfl | rfl
    · decide
    · exact wfTok_natDigits cpu
  simp [parseIntTok_natDigits]

theorem parse_geom_line (st : PState) (h6 : 0 ≤ st.currentBtb) (s w : Int) :
    parseLine st
        (indent2 ++ tokensToLine
          [kwDirectGeometry, kwSetsPlain, intDigits s, kwWaysPlain, intDigits w]) =
      .ok (applyUpd st fun b => { b with direct_sets := s, direct_ways := w }) := by
  rw [parseLine_built st indent2 (by decide) _ _ (by decide) ?wf]
  case wf =>
    intro t ht
    simp only [List.mem_cons, List.not_mem_nil, or_false] at ht
    rcases ht with rfl | rfl | rfl | rfl
    · decide
    · exact wfTok_intDigits s
    · decide
    · exact wfTok_intDigits w
  rw [parseLineCore_btbRec st _ _ (by decide) (by decide) (by decide) (by decide) (by decide) h6,
    tokenize_lineRest _ ?wf2]
  case wf2 =>
    intro t ht
    simp only [List.mem_cons, List.not_mem_nil, or_false] at ht
    rcases ht with rfl | rfl | rfl | rfl
    · decide
    · exact wfTok_intDigits s
    · decide
    · exact wfTok_intDigits w
  rw [parseBtbRecord_geom s w []]
  rfl

theorem parse_directEntry_line (st : PState) (h6 : 0 ≤ st.currentBtb) (e : DirectEntryC)
    (hbt : e.branch_type < 256) :
    parseLine st
        (indent2 ++ tokensToLine
          [kwDirectEntry, kwSetPlain, intDigits e.set, kwWayPlain, intDigits e.way,
           kwLastUsed, natDigits 10 e.last_used, kwIP, addrDigits e.ip_tag,
           kwTarget, addrDigits e.target, kwType, natDigits 10 e.branch_type]) =
      .ok (applyUpd st fun b => { b with direct_entries := b.direct_entries ++ [e] }) := by
  have hwf : ∀ t ∈ [kwSetPlain, intDigits e.set, kwWayPlain, intDigits e.way,
      kwLastUsed, natDigits 10 e.last_used, kwIP, addrDigits e.ip_tag,
      kwTarget, addrDigits e.target, kwType, natDigits 10 e.branch_type], WfTok t := by
    intro t ht
    simp only [List.mem_cons, List.not_mem_nil, or_false] at ht
    rcases ht with rfl | rfl | rfl | rfl | rfl | rfl | rfl | rfl | rfl | rfl | rfl | rfl
    · decide
    · exact wfTok_intDigits e.set
    · decide
    · exact wfTok_intDigits e.way
    · decide
    · exact wfTok_natDigits e.last_used
    · decide
    · exact wfTok_addrDigits e.ip_tag
    · decide
    · exact wfTok_addrDigits e.target
    · decide
    · exact wfTok_natDigits e.branch_type
  rw [parseLine_built st indent2 (by decide) _ _ (by decide) hwf]
  rw [parseLineCore_btbRec st _ _ (by decide) (by decide) (by decide) (by decide) (by decide) h6,
    tokenize_lineRest _ hwf,
    parseBtbRecord_directEntry e.set e.way e.last_used e.ip_tag e.target e.branch_type []]
  have hmod : (((e.branch_type : Int)).emod 256).toNat = e.branch_type := by
    have h1 : ((e.branch_type : Int)).emod 256 = (e.branch_type : Int) := by
      apply Int.emod_eq_of_lt <;> omega
    rw [h1]
    simp
  rw [hmod]
  rfl

theorem parse_cst_line (st : PState) (h6 : 0 ≤ st.currentBtb) (i : Nat) (v : Int) :
    parseLine st
        (indent2 ++ tokensToLine [kwCST, kwIndex, natDigits 10 i, kwSizePlain, intDigits v]) =
      .ok (applyUpd st fun b =>
        let tr :=
          if b.call_size_trackers.length ≤ i then vecResize b.call_size_trackers (i + 1) 0
          else b.call_size_trackers
        { b with call_size_trackers := tr.set i v }) := by
  have hwf : ∀ t ∈ [kwIndex, natDigits 10 i, kwSizePlain, intDigits v], WfTok t := by
    intro t ht
    simp only [List.mem_cons, List.not_mem_nil, or_false] at ht
    rcases ht with rfl | rfl | rfl | rfl
    · decide
    · exact wfTok_natDigits i
    · decide
    · exact wfTok_intDigits v
  rw [parseLine_built st indent2 (by decide) _ _ (by decide) hwf]
  rw [parseLineCore_btbRec st _ _ (by decide) (by decide) (by decide) (by decide) (by decide) h6,
    tokenize_lineRest _ hwf, parseBtbRecord_cst i v []]
  rfl

theorem midPairs_parse (s : BtbCkpt) (h3 : ∀ e ∈ s.direct_entries, e.branch_type < 256) :
    ∀ (st : PState) (a : List Char × (BtbCkpt → BtbCkpt)), a ∈ midPairs s →
      0 ≤ st.currentBtb → parseLine st a.1 = .ok (applyUpd st a.2) := by
  intro st a ha h6
  unfold midPairs at ha
  rcases List.mem_append.mp ha with ha | hT
  rcases List.mem_append.mp ha with ha | hR
  rcases List.mem_append.mp ha with ha | hI
  rcases List.mem_append.mp ha with ha | hE
  · simp only [List.mem_cons, List.not_mem_nil, or_false] at ha
    rcases ha with rfl | rfl | rfl | rfl
    · exact parse_geom_line st h6 s.direct_sets s.direct_ways
    · exact parse_indirSize_line st h6 s.indirect_table_size
    · exact parse_indirHist_line st h6 s.indirect_history
    · exact parse_cstSize_line st h6 s.call_size_tracker_size
  · obtain ⟨e, he, rfl⟩ := List.mem_map.mp hE
    exact parse_directEntry_line st h6 e (h3 e he)
  · obtain ⟨p, hp, rfl⟩ := List.mem_map.mp hI
    exact parse_indirEntry_line st h6 p.1 p.2
  · obtain ⟨a2, hr, rfl⟩ := List.mem_map.mp hR
    exact parse_rse_line st h6 a2
  · obtain ⟨p, hp, rfl⟩ := List.mem_map.mp hT
    exact parse_cst_line st h6 p.1 p.2

/-- Emit-then-parse round trip for any checkpoint state whose vector
lengths agree with their recorded sizes and whose branch_type fields are
bytes; checkpoint_contents always produces such states. -/
theorem parse_emit_ckpt (cpu : Nat) (s : BtbCkpt)
    (h1 : s.indirect_targets.length = s.indirect_table_size)
    (h2 : s.call_size_trackers.length = s.call_size_tracker_size)
    (h3 : ∀ e ∈ s.direct_entries, e.branch_type < 256) :
    parsedBtb (emitBtbLines cpu s) ((cpu : Int)) = some s := by
  have hc : (0 : Int) ≤ (cpu : Int) := Int.natCast_nonneg cpu
  have hST : ∃ st1 : PState,
      parseLine initPState (tokensToLine [kwBTB, kwCPU, natDigits 10 cpu]) = .ok st1 ∧
        st1.currentBtb = (cpu : Int) ∧ alLookup ((cpu : Int)) st1.btbs = some emptyCkpt :=
    ⟨_, parse_btbHeader_line initPState cpu, rfl, by simp [initPState, alEnsure, alLookup]⟩
  obtain ⟨st1, hhead, hb1, hl1⟩ := hST
  rw [← hb1] at hl1
  obtain ⟨st', hrun, hbtb', hlook⟩ :=
    runLines_map_upd Prod.fst Prod.snd (midPairs s) (midPairs_parse s h3) st1 emptyCkpt
      (by rw [hb1]; exact hc) hl1
  rw [midPairs_fold s h1 h2, hb1] at hlook
  have hend := parse_endBtb_line st' (by rw [hbtb', hb1]; exact hc)
  have hrun1 : runLines initPState (emitBtbLines cpu s) =
      Except.ok { st' with currentBtb := -1 } := by
    rw [emit_eq_midPairs, runLines_cons_ok _ _ _ _ hhead,
      runLines_append_ok _ _ _ _ hrun, runLines_cons_ok _ _ _ _ hend]
    rfl
  unfold parsedBtb
  rw [hrun1]
  show alLookup ((cpu : Int)) ({ st' with currentBtb := -1 } : PState).btbs = some s
  exact hlook

/-- C3: emitting a reachable BTB checkpoint state to the text format and
parsing it back yields an equal state. -/
theorem C3_checkpoint_roundtrip (g : Geometry) (cpu : Nat) (core : Core)
    (_reach : Reachable g core) :
    parsedBtb (emitBtbLines cpu (checkpointContents g core)) ((cpu : Int)) =
      some (checkpointContents g core) :=
  parse_emit_ckpt cpu (checkpointContents g core) rfl rfl (by
    intro e he
    unfold checkpointContents at he
    obtain ⟨i, hi, rfl⟩ := List.mem_map.mp he
    exact encodeBranchInfo_lt _)

/-- Witness for C3 on the initial core of the minimal geometry. -/
theorem C3_witness :
    parsedBtb (emitBtbLines 0 (checkpointContents g0 (initCore g0))) (((0 : Nat) : Int)) =
      some (checkpointContents g0 (initCore g0)) :=
  C3_checkpoint_roundtrip g0 0 (initCore g0) Reachable.init

/-- C10: IndirectEntry and CallSizeTracker lines whose index lies at or
beyond the declared size are not rejected; the parser grows the vector to
index + 1 and the file parses successfully. -/
theorem C10_parser_grows_vectors (n i m j tval : Nat) (v : Int) (hn : n ≤ i) (hm : m ≤ j) :
    ∃ s : BtbCkpt,
      parsedBtb
          [tokensToLine [kwBTB, kwCPU, natDigits 10 0],
           indent2 ++ tokensToLine [kwIndirectSize, natDigits 10 n],
           indent2 ++
             tokensToLine [kwIndirectEntry, kwIndex, natDigits 10 i, kwTarget, addrDigits tval],
           indent2 ++ tokensToLine [kwCSTSize, natDigits 10 m],
           indent2 ++ tokensToLine [kwCST, kwIndex, natDigits 10 j, kwSizePlain, intDigits v],
           kwEndBTB] (((0 : Nat)) : Int) = some s ∧
        s.indirect_targets.length = i + 1 ∧ s.call_size_trackers.length = j + 1 := by
  have hST : ∃ st1 : PState,
      parseLine initPState (tokensToLine [kwBTB, kwCPU, natDigits 10 0]) = .ok st1 ∧
        st1.currentBtb = (((0 : Nat)) : Int) ∧
        alLookup (((0 : Nat)) : Int) st1.btbs = some emptyCkpt :=
    ⟨_, parse_btbHeader_line initPState 0, rfl, by simp [initPState, alEnsure, alLookup]⟩
  obtain ⟨st1, hhead, hb1, hl1⟩ := hST
  rw [← hb1] at hl1
  have hc : (0 : Int) ≤ st1.currentBtb := by rw [hb1]; simp
  obtain ⟨st', hrun, hbtb', hlook⟩ :=
    runLines_map_upd Prod.fst Prod.snd
      [(indent2 ++ tokensToLine [kwIndirectSize, natDigits 10 n],
        fun b => { b with indirect_table_size := n,
                          indirect_targets := vecResize b.indirect_targets n 0 }),
       (indent2 ++
          tokensToLine [kwIndirectEntry, kwIndex, natDigits 10 i, kwTarget, addrDigits tval],
        fun b =>
          let tg :=
            if b.indirect_targets.length ≤ i then vecResize b.indirect_targets (i + 1) 0
            else b.indirect_targets
          { b with indirect_targets := tg.set i tval }),
       (indent2 ++ tokensToLine [kwCSTSize, natDigits 10 m],
        fun b => { b with call_size_tracker_size := m,
                          call_size_trackers := vecResize b.call_size_trackers m 0 }),
       (indent2 ++ tokensToLine [kwCST, kwIndex, natDigits 10 j, kwSizePlain, intDigits v],
        fun b =>
          let tr :=
            if b.call_size_trackers.length ≤ j then vecResize b.call_size_trackers (j + 1) 0
            else b.call_size_trackers
          { b with call_size_trackers := tr.set j v })]
      (by
        intro st a ha h6
        simp only [List.mem_cons, List.not_mem_nil, or_false] at ha
        rcases ha with rfl | rfl | rfl | rfl
        · exact parse_indirSize_line st h6 n
        · exact parse_indirEntry_line st h6 i tval
        · exact parse_cstSize_line st h6 m
        · exact parse_cst_line st h6 j v)
      st1 emptyCkpt hc hl1
  simp only [List.map_cons, List.map_nil] at hrun
  have hend := parse_endBtb_line st' (by rw [hbtb', hb1]; simp)
  have hrun1 : runLines initPState
      [tokensToLine [kwBTB, kwCPU, natDigits 10 0],
       indent2 ++ tokensToLine [kwIndirectSize, natDigits 10 n],
       indent2 ++
         tokensToLine [kwIndirectEntry, kwIndex, natDigits 10 i, kwTarget, addrDigits tval],
       indent2 ++ tokensToLine [kwCSTSize, natDigits 10 m],
       indent2 ++ tokensToLine [kwCST, kwIndex, natDigits 10 j, kwSizePlain, intDigits v],
       kwEndBTB] = Except.ok { st' with currentBtb := -1 } := by
    rw [show ([tokensToLine [kwBTB, kwCPU, natDigits 10 0],
        indent2 ++ tokensToLine [kwIndirectSize, natDigits 10 n],
        indent2 ++
          tokensToLine [kwIndirectEntry, kwIndex, natDigits 10 i, kwTarget, addrDigits tval],
        indent2 ++ tokensToLine [kwCSTSize, natDigits 10 m],
        indent2 ++ tokensToLine [kwCST, kwIndex, natDigits 10 j, kwSizePlain, intDigits v],
        kwEndBTB] : List (List Char)) = tokensToLine [kwBTB, kwCPU, natDigits 10 0] ::
          ([indent2 ++ tokensToLine [kwIndirectSize, natDigits 10 n],
            indent2 ++
              tokensToLine [kwIndirectEntry, kwIndex, natDigits 10 i, kwTarget, addrDigits tval],
            indent2 ++ tokensToLine [kwCSTSize, natDigits 10 m],
            indent2 ++ tokensToLine [kwCST, kwIndex, natDigits 10 j, kwSizePlain, intDigits v]] ++
            [kwEndBTB]) from rfl]
    rw [runLines_cons_ok _ _ _ _ hhead, runLines_append_ok _ _ _ _ hrun,
      runLines_cons_ok _ _ _ _ hend]
    rfl
  have hsome : parsedBtb
      [tokensToLine [kwBTB, kwCPU, natDigits 10 0],
       indent2 ++ tokensToLine [kwIndirectSize, natDigits 10 n],
       indent2 ++
         tokensToLine [kwIndirectEntry, kwIndex, natDigits 10 i, kwTarget, addrDigits tval],
       indent2 ++ tokensToLine [kwCSTSize, natDigits 10 m],
       indent2 ++ tokensToLine [kwCST, kwIndex, natDigits 10 j, kwSizePlain, intDigits v],
       kwEndBTB] (((0 : Nat)) : Int) = alLookup st1.currentBtb st'.btbs := by
    unfold parsedBtb
    rw [hrun1]
    show alLookup (((0 : Nat)) : Int) ({ st' with currentBtb := -1 } : PState).btbs =
      alLookup st1.currentBtb st'.btbs
    rw [hb1]
  rw [hlook] at hsome
  refine ⟨_, hsome, ?_, ?_⟩
  · simp only [List.foldl_cons, List.foldl_nil]
    simp [vecResize_length, hn]
  · simp only [List.foldl_cons, List.foldl_nil]
    simp [vecResize_length, hm]

/-- Witness for C10 with declared sizes 1 and entries at indices 3 and 2. -/
theorem C10_witness :
    ∃ s : BtbCkpt,
      parsedBtb
          [tokensToLine [kwBTB, kwCPU, natDigits 10 0],
           indent2 ++ tokensToLine [kwIndirectSize, natDigits 10 1],
           indent2 ++
             tokensToLine [kwIndirectEntry, kwIndex, natDigits 10 3, kwTarget, addrDigits 5],
           indent2 ++ tokensToLine [kwCSTSize, natDigits 10 1],
           indent2 ++
             tokensToLine [kwCST, kwIndex, natDigits 10 2, kwSizePlain, intDigits (-2)],
           kwEndBTB] (((0 : Nat)) : Int) = some s ∧
        s.indirect_targets.length = 3 + 1 ∧ s.call_size_trackers.length = 2 + 1 :=
  C10_parser_grows_vectors 1 3 1 2 5 (-2) (by decide) (by decide)

end BtbCkptProof
